import Mathlib

/-!
Formal model of the bustub buffer pool manager instance and its LRU replacer
(src/buffer/buffer_pool_manager_instance.cpp and the first implementation in
src/buffer/lru_replacer.cpp), as a shallow embedding.

Modelling conventions:
* C++ std::list objects (the free list and the pin_lists_ member of the replacer) are
  modelled as Lean lists stored in reverse of the C++ order: the Lean list
  head is the C++ back.  So pop_back becomes head pattern matching and
  emplace_front becomes appending a singleton.
* std::unordered_map objects (the page table and pin_map_table_) are
  modelled as association lists; map assignment is insert-after-erase.
  For pin_map_table_ only the tripartition absent / valid iterator /
  end iterator is observable, which is represented by membership in
  pinLists (valid iterator) and pinnedOut (end iterator).
* Machine integers (page_id_t, int pin counts) are modelled as Int; page
  buffer contents are modelled abstractly as one Int, with 0 for zeroed
  memory.  The disk is an association list from page id to contents, and a
  trace of every DiskManager WritePage call is recorded in writes.
-/

namespace BusTub

/-- The INVALID_PAGE_ID sentinel. -/
def INVALID_PAGE_ID : Int := -1

/-- A page frame: resident page id, pin count, dirty flag, and buffer
contents.  Field defaults match the default-constructed bustub Page. -/
structure Page where
  pageId : Int := INVALID_PAGE_ID
  pinCount : Int := 0
  isDirty : Bool := false
  data : Int := 0
deriving DecidableEq

/-- A default-constructed page frame. -/
def emptyPage : Page := {}

/-- Association list lookup by integer key (models unordered_map find). -/
def ptLookup {α : Type} : List (Int × α) → Int → Option α
  | [], _ => none
  | e :: t, p => if e.1 = p then some e.2 else ptLookup t p

/-- Association list erase by integer key (models unordered_map erase). -/
def ptErase {α : Type} : List (Int × α) → Int → List (Int × α)
  | [], _ => []
  | e :: t, p => if e.1 = p then ptErase t p else e :: ptErase t p

/-- Association list assignment (models map subscript assignment). -/
def ptInsert {α : Type} (t : List (Int × α)) (p : Int) (v : α) : List (Int × α) :=
  (p, v) :: ptErase t p

/-- DiskManager ReadPage: the bytes stored under a page id (0 if never written). -/
def diskRead (d : List (Int × Int)) (p : Int) : Int :=
  (ptLookup d p).getD 0

/-- DiskManager WritePage effect on the disk contents. -/
def diskWrite (d : List (Int × Int)) (p v : Int) : List (Int × Int) :=
  ptInsert d p v

/-- State of LRUReplacer (first implementation in lru_replacer.cpp).
pinLists is the std::list in reverse order (head = C++ back = next victim,
append = C++ emplace_front).  pinnedOut holds the frame ids whose
pin_map_table_ entry stores the end() iterator. -/
structure LRUReplacer where
  numPages : Nat
  pinLists : List Nat := []
  pinnedOut : List Nat := []
deriving DecidableEq

/-- LRUReplacer::Victim: if pin_lists_ is nonempty, return its back,
erase it from pin_map_table_ and pop it; otherwise report none. -/
def LRUReplacer.victim (r : LRUReplacer) : Option Nat × LRUReplacer :=
  match r.pinLists with
  | [] => (none, r)
  | f :: rest => (some f, { r with pinLists := rest })

/-- LRUReplacer::Pin: if the frame is in pin_map_table_ with a valid
iterator (i.e. it is in pin_lists_), erase it from the list and point its
map entry at end(). -/
def LRUReplacer.pin (r : LRUReplacer) (f : Nat) : LRUReplacer :=
  if f ∈ r.pinLists then
    { r with pinLists := r.pinLists.erase f, pinnedOut := r.pinnedOut.insert f }
  else r

/-- LRUReplacer::Unpin: if the frame is absent from pin_map_table_ or its
entry is end(), and pin_lists_ has spare capacity, emplace it at the front
(our append) and point its map entry at the new node. -/
def LRUReplacer.unpin (r : LRUReplacer) (f : Nat) : LRUReplacer :=
  if f ∈ r.pinLists then r
  else if r.pinLists.length < r.numPages then
    { r with pinLists := r.pinLists ++ [f], pinnedOut := r.pinnedOut.erase f }
  else r

/-- LRUReplacer::Size: the number of eviction-eligible frames. -/
def LRUReplacer.size (r : LRUReplacer) : Nat :=
  r.pinLists.length

/-- State of a BufferPoolManagerInstance.  writes records every WritePage
call (page id, data) in order; allocated records every page id handed out
by AllocatePage (newest first) and is bookkeeping only. -/
structure BPM where
  poolSize : Nat
  numInstances : Nat
  instanceIndex : Nat
  nextPageId : Int
  pages : List Page
  freeList : List Nat
  pageTable : List (Int × Nat)
  replacer : LRUReplacer
  disk : List (Int × Int)
  writes : List (Int × Int)
  allocated : List Int
deriving DecidableEq

/-- The frame metadata in slot i (frames live in a fixed array of size
poolSize, so in reachable states i is always in range). -/
def pageAt (s : BPM) (i : Nat) : Page :=
  s.pages.getD i emptyPage

/-- The BufferPoolManagerInstance constructor: next_page_id_ starts at
instance_index, every frame starts on the free list (pushed back in index
order, so in our reversed representation the head is poolSize - 1). -/
def mkBPM (poolSize numInstances instanceIndex : Nat) (disk : List (Int × Int)) : BPM :=
  { poolSize := poolSize
    numInstances := numInstances
    instanceIndex := instanceIndex
    nextPageId := (instanceIndex : Int)
    pages := List.replicate poolSize emptyPage
    freeList := (List.range poolSize).reverse
    pageTable := []
    replacer := { numPages := poolSize }
    disk := disk
    writes := []
    allocated := [] }

/-- BufferPoolManagerInstance::AllocatePage: return next_page_id_ and bump
it by num_instances_. -/
def BPM.allocatePage (s : BPM) : Int × BPM :=
  (s.nextPageId,
   { s with nextPageId := s.nextPageId + (s.numInstances : Int),
            allocated := s.nextPageId :: s.allocated })

/-- Shared tail of NewPgImp once a frame has been acquired: reset metadata,
zero the buffer, install the page-table entry and pin the frame in the
replacer. -/
def finishNew (s : BPM) (pid : Int) (f : Nat) : BPM :=
  let pg := pageAt s f
  { s with pages := s.pages.set f { pg with isDirty := false, pinCount := 1,
                                            pageId := pid, data := 0 },
           pageTable := ptInsert s.pageTable pid f,
           replacer := s.replacer.pin f }

/-- BufferPoolManagerInstance::NewPgImp.  Returns the allocated page id and
frame index on success (the C++ code writes the id through the out
parameter and returns a pointer to the frame), none when the pool is
exhausted. -/
def BPM.newPg (s : BPM) : Option (Int × Nat) × BPM :=
  if s.freeList = [] ∧ s.replacer.size = 0 then (none, s)
  else
    let pid := s.nextPageId
    let s1 : BPM := { s with nextPageId := s.nextPageId + (s.numInstances : Int),
                             allocated := s.nextPageId :: s.allocated }
    match s1.freeList with
    | f :: rest => (some (pid, f), finishNew { s1 with freeList := rest } pid f)
    | [] =>
      match s1.replacer.victim with
      | (none, r) => (none, { s1 with replacer := r })
      | (some f, r) =>
        let s2 : BPM := { s1 with replacer := r }
        let pg := pageAt s2 f
        let s3 : BPM :=
          if pg.isDirty then
            { s2 with writes := s2.writes ++ [(pg.pageId, pg.data)],
                      disk := diskWrite s2.disk pg.pageId pg.data,
                      pages := s2.pages.set f { pg with isDirty := false } }
          else s2
        let s4 : BPM := { s3 with pageTable := ptErase s3.pageTable pg.pageId }
        (some (pid, f), finishNew s4 pid f)

/-- Shared tail of the FetchPgImp miss path once a frame has been acquired:
write back if dirty (without clearing the flag, exactly as the source),
replace the page-table entry, reset metadata and read the page from disk.
Note that the source does not pin the frame in the replacer here. -/
def fetchFinish (s : BPM) (pid : Int) (f : Nat) : Option Nat × BPM :=
  let pg := pageAt s f
  let s1 : BPM :=
    if pg.isDirty then
      { s with writes := s.writes ++ [(pg.pageId, pg.data)],
               disk := diskWrite s.disk pg.pageId pg.data }
    else s
  let s2 : BPM := { s1 with pageTable := ptInsert (ptErase s1.pageTable pg.pageId) pid f }
  (some f,
   { s2 with pages := s2.pages.set f { pg with pageId := pid, isDirty := false,
                                               pinCount := 1,
                                               data := diskRead s2.disk pid } })

/-- BufferPoolManagerInstance::FetchPgImp.  Returns the frame index holding
the page on success (the C++ code returns a pointer to the frame). -/
def BPM.fetchPg (s : BPM) (pid : Int) : Option Nat × BPM :=
  match ptLookup s.pageTable pid with
  | some f =>
    let pg := pageAt s f
    (some f, { s with replacer := s.replacer.pin f,
                      pages := s.pages.set f { pg with pinCount := pg.pinCount + 1 } })
  | none =>
    match s.freeList with
    | f :: rest => fetchFinish { s with freeList := rest } pid f
    | [] =>
      match s.replacer.victim with
      | (none, r) => (none, { s with replacer := r })
      | (some f, r) => fetchFinish { s with replacer := r } pid f

/-- BufferPoolManagerInstance::UnpinPgImp. -/
def BPM.unpinPg (s : BPM) (pid : Int) (d : Bool) : Bool × BPM :=
  match ptLookup s.pageTable pid with
  | none => (false, s)
  | some f =>
    let pg := pageAt s f
    if pg.pinCount ≤ 0 then (false, s)
    else
      let pg1 : Page := { pg with isDirty := pg.isDirty || d, pinCount := pg.pinCount - 1 }
      let s1 : BPM := { s with pages := s.pages.set f pg1 }
      if pg1.pinCount = 0 then (true, { s1 with replacer := s1.replacer.unpin f })
      else (true, s1)

/-- BufferPoolManagerInstance::FlushPgImp. -/
def BPM.flushPg (s : BPM) (pid : Int) : Bool × BPM :=
  match ptLookup s.pageTable pid with
  | none => (false, s)
  | some f =>
    if pid = INVALID_PAGE_ID then (false, s)
    else
      let pg := pageAt s f
      if pg.isDirty then
        (true, { s with writes := s.writes ++ [(pid, pg.data)],
                        disk := diskWrite s.disk pid pg.data,
                        pages := s.pages.set f { pg with isDirty := false } })
      else (true, s)

/-- One iteration of the FlushAllPgsImp loop at frame index i. -/
def flushFrame (s : BPM) (i : Nat) : BPM :=
  let pg := pageAt s i
  if pg.isDirty then
    { s with writes := s.writes ++ [(pg.pageId, pg.data)],
             disk := diskWrite s.disk pg.pageId pg.data,
             pages := s.pages.set i { pg with isDirty := false } }
  else s

/-- The FlushAllPgsImp loop over a list of frame indices. -/
def flushFrames (s : BPM) : List Nat → BPM
  | [] => s
  | i :: rest => flushFrames (flushFrame s i) rest

/-- BufferPoolManagerInstance::FlushAllPgsImp: visit every frame in index
order and write back the dirty ones. -/
def BPM.flushAll (s : BPM) : BPM :=
  flushFrames s (List.range s.poolSize)

/-- BufferPoolManagerInstance::DeletePgImp.  DeallocatePage is bookkeeping
with no observable effect and is modelled as a no-op. -/
def BPM.deletePg (s : BPM) (pid : Int) : Bool × BPM :=
  match ptLookup s.pageTable pid with
  | none => (true, s)
  | some f =>
    let pg := pageAt s f
    if pg.pinCount ≠ 0 then (false, s)
    else
      (true, { s with pages := s.pages.set f { pg with pageId := INVALID_PAGE_ID,
                                                       isDirty := false },
                      freeList := s.freeList ++ [f],
                      pageTable := ptErase s.pageTable pid })

/-- The public operations of the manager. -/
inductive Op where
  | newPage : Op
  | fetchPage : Int → Op
  | unpinPage : Int → Bool → Op
  | flushPage : Int → Op
  | flushAllPages : Op
  | deletePage : Int → Op
deriving DecidableEq

/-- The state transition of one operation (discarding the result value). -/
def BPM.step (s : BPM) : Op → BPM
  | .newPage => (s.newPg).2
  | .fetchPage p => (s.fetchPg p).2
  | .unpinPage p d => (s.unpinPg p d).2
  | .flushPage p => (s.flushPg p).2
  | .flushAllPages => s.flushAll
  | .deletePage p => (s.deletePg p).2

/-- Run a sequence of operations. -/
def BPM.run (s : BPM) : List Op → BPM
  | [] => s
  | op :: rest => (s.step op).run rest

/-- An operation is well targeted when any FetchPage argument is a page id
this instance has previously allocated. -/
def okOpB (s : BPM) : Op → Bool
  | .fetchPage p => decide (p ∈ s.allocated)
  | _ => true

/-- A sequence of operations is well targeted from state s when every
FetchPage in it fetches a previously allocated page id. -/
def WFB (s : BPM) : List Op → Bool
  | [] => true
  | op :: rest => okOpB s op && WFB (s.step op) rest

/-- The manager state after k further AllocatePage calls. -/
def allocState (s : BPM) : Nat → BPM
  | 0 => s
  | k + 1 => ((allocState s k).allocatePage).2

/-- The page id returned by the (k+1)-st AllocatePage call from state s. -/
def allocNth (s : BPM) (k : Nat) : Int :=
  ((allocState s k).allocatePage).1

/-- The inductive state invariant of the buffer pool manager, preserved by
every well-targeted operation: every frame accounted for, page-table
entries accurate and keyed by allocated ids, deleted and initial free
frames hold the sentinel, and every eviction-eligible frame that is not
sitting on the free list has an accurate page-table entry. -/
structure INV (s : BPM) : Prop where
  hlen : s.pages.length = s.poolSize
  hrep : s.replacer.numPages = s.poolSize
  hcount : s.freeList.length + s.pageTable.length = s.poolSize
  hfree : ∀ f ∈ s.freeList, f < s.poolSize ∧ (pageAt s f).pageId = INVALID_PAGE_ID
  hfreeND : s.freeList.Nodup
  htab : ∀ e ∈ s.pageTable,
    e.2 < s.poolSize ∧ (pageAt s e.2).pageId = e.1 ∧ 0 ≤ e.1 ∧ e.1 < s.nextPageId
  hkeyND : (s.pageTable.map Prod.fst).Nodup
  hlru : ∀ g ∈ s.replacer.pinLists,
    g < s.poolSize ∧ (g ∉ s.freeList → ptLookup s.pageTable (pageAt s g).pageId = some g)
  hlruND : s.replacer.pinLists.Nodup
  halloc : ∀ p ∈ s.allocated, 0 ≤ p ∧ p < s.nextPageId
  hnext : 0 ≤ s.nextPageId
  hinst : 0 < s.numInstances

/-! ### Helper lemmas about lists and association lists -/

theorem getD_set_self {α : Type} (l : List α) (i : Nat) (a d : α) (h : i < l.length) :
    (l.set i a).getD i d = a := by
  induction l generalizing i with
  | nil => simp at h
  | cons x xs ih =>
    cases i with
    | zero => simp
    | succ n =>
      rw [List.set_cons_succ, List.getD_cons_succ]
      exact ih n (by simpa using h)

theorem getD_set_ne {α : Type} (l : List α) (i j : Nat) (a d : α) (h : j ≠ i) :
    (l.set i a).getD j d = l.getD j d := by
  induction l generalizing i j with
  | nil => simp [List.set]
  | cons x xs ih =>
    cases i with
    | zero =>
      cases j with
      | zero => exact absurd rfl h
      | succ m => simp
    | succ n =>
      cases j with
      | zero => simp
      | succ m =>
        rw [List.set_cons_succ, List.getD_cons_succ, List.getD_cons_succ]
        exact ih n m fun hc => h (by rw [hc])

theorem getD_replicate {α : Type} (n i : Nat) (a d : α) (h : i < n) :
    (List.replicate n a).getD i d = a := by
  induction n generalizing i with
  | zero => omega
  | succ m ih =>
    cases i with
    | zero => simp [List.replicate]
    | succ k =>
      rw [List.replicate, List.getD_cons_succ]
      exact ih k (by omega)

theorem ptLookup_erase_self {α : Type} (t : List (Int × α)) (p : Int) :
    ptLookup (ptErase t p) p = none := by
  induction t with
  | nil => rfl
  | cons e rest ih =>
    by_cases he : e.1 = p
    · simpa [ptErase, he] using ih
    · simp [ptErase, he, ptLookup, ih]

theorem ptLookup_erase_ne {α : Type} (t : List (Int × α)) (p q : Int) (h : q ≠ p) :
    ptLookup (ptErase t p) q = ptLookup t q := by
  induction t with
  | nil => rfl
  | cons e rest ih =>
    simp only [ptErase, ptLookup]
    by_cases he : e.1 = p
    · rw [if_pos he, ih, if_neg (by rw [he]; exact fun hc => h hc.symm)]
    · rw [if_neg he]
      simp only [ptLookup]
      by_cases hq : e.1 = q
      · rw [if_pos hq, if_pos hq]
      · rw [if_neg hq, if_neg hq, ih]

theorem mem_ptErase {α : Type} (t : List (Int × α)) (p : Int) (e : Int × α) :
    e ∈ ptErase t p ↔ e ∈ t ∧ e.1 ≠ p := by
  induction t with
  | nil => simp [ptErase]
  | cons x rest ih =>
    by_cases hx : x.1 = p
    · simp only [ptErase, if_pos hx, ih, List.mem_cons]
      constructor
      · rintro ⟨h1, h2⟩; exact ⟨Or.inr h1, h2⟩
      · rintro ⟨h1 | h1, h2⟩
        · exact absurd (h1 ▸ hx) h2
        · exact ⟨h1, h2⟩
    · simp only [ptErase, if_neg hx, List.mem_cons, ih]
      constructor
      · rintro (rfl | ⟨h1, h2⟩)
        · exact ⟨Or.inl rfl, hx⟩
        · exact ⟨Or.inr h1, h2⟩
      · rintro ⟨rfl | h1, h2⟩
        · exact Or.inl rfl
        · exact Or.inr ⟨h1, h2⟩

theorem ptLookup_eq_none_iff {α : Type} (t : List (Int × α)) (p : Int) :
    ptLookup t p = none ↔ ∀ e ∈ t, e.1 ≠ p := by
  induction t with
  | nil => simp [ptLookup]
  | cons e rest ih =>
    by_cases he : e.1 = p
    · simp [ptLookup, he]
    · simp [ptLookup, he, ih]

theorem ptLookup_mem {α : Type} (t : List (Int × α)) (p : Int) (v : α)
    (h : ptLookup t p = some v) : (p, v) ∈ t := by
  induction t with
  | nil => simp [ptLookup] at h
  | cons e rest ih =>
    by_cases he : e.1 = p
    · simp only [ptLookup, if_pos he] at h
      obtain ⟨p1, p2⟩ := e
      obtain rfl : p1 = p := he
      obtain rfl : p2 = v := by simpa using h
      exact List.mem_cons_self _ _
    · simp only [ptLookup, if_neg he] at h
      exact List.mem_cons_of_mem _ (ih h)

theorem ptErase_eq_of_lookup_none {α : Type} (t : List (Int × α)) (p : Int)
    (h : ptLookup t p = none) : ptErase t p = t := by
  induction t with
  | nil => rfl
  | cons e rest ih =>
    rw [ptLookup_eq_none_iff] at h
    have he : e.1 ≠ p := h e (List.mem_cons_self _ _)
    have hrest : ptLookup rest p = none := by
      rw [ptLookup_eq_none_iff]
      exact fun x hx => h x (List.mem_cons_of_mem _ hx)
    simp [ptErase, he, ih hrest]

theorem length_ptErase_of_lookup_some {α : Type} (t : List (Int × α)) (p : Int) (v : α)
    (hND : (t.map Prod.fst).Nodup) (h : ptLookup t p = some v) :
    t.length = (ptErase t p).length + 1 := by
  induction t with
  | nil => simp [ptLookup] at h
  | cons e rest ih =>
    rw [List.map_cons] at hND
    obtain ⟨h1, h2⟩ := List.nodup_cons.mp hND
    by_cases he : e.1 = p
    · have hnot : p ∉ rest.map Prod.fst := he ▸ h1
      have hnone : ptLookup rest p = none := by
        rw [ptLookup_eq_none_iff]
        intro x hx hc
        exact hnot (hc ▸ List.mem_map_of_mem Prod.fst hx)
      simp [ptErase, he, ptErase_eq_of_lookup_none rest p hnone]
    · have h' : ptLookup rest p = some v := by simpa [ptLookup, he] using h
      simp [ptErase, he, ih h2 h']

theorem keys_ptErase_nodup {α : Type} (t : List (Int × α)) (p : Int)
    (hND : (t.map Prod.fst).Nodup) : ((ptErase t p).map Prod.fst).Nodup := by
  induction t with
  | nil => simp [ptErase]
  | cons e rest ih =>
    rw [List.map_cons] at hND
    obtain ⟨h1, h2⟩ := List.nodup_cons.mp hND
    by_cases he : e.1 = p
    · simpa [ptErase, he] using ih h2
    · rw [show ptErase (e :: rest) p = e :: ptErase rest p from by simp [ptErase, he],
         List.map_cons]
      refine List.nodup_cons.mpr ⟨?_, ih h2⟩
      intro hc
      rw [List.mem_map] at hc
      obtain ⟨x, hx, hx1⟩ := hc
      exact h1 (hx1 ▸ List.mem_map_of_mem Prod.fst ((mem_ptErase rest p x).mp hx).1)

theorem notmem_keys_of_lookup_none {α : Type} (t : List (Int × α)) (p : Int)
    (h : ptLookup t p = none) : p ∉ t.map Prod.fst := by
  rw [ptLookup_eq_none_iff] at h
  intro hc
  rw [List.mem_map] at hc
  obtain ⟨x, hx, hx1⟩ := hc
  exact h x hx hx1

theorem ptLookup_insert_self {α : Type} (t : List (Int × α)) (p : Int) (v : α) :
    ptLookup (ptInsert t p v) p = some v := by
  simp [ptInsert, ptLookup]

theorem ptLookup_insert_ne {α : Type} (t : List (Int × α)) (p q : Int) (v : α) (h : q ≠ p) :
    ptLookup (ptInsert t p v) q = ptLookup t q := by
  have : p ≠ q := fun hc => h hc.symm
  simp only [ptInsert, ptLookup, if_neg this]
  exact ptLookup_erase_ne t p q h

theorem length_ptInsert {α : Type} (t : List (Int × α)) (p : Int) (v : α) :
    (ptInsert t p v).length = (ptErase t p).length + 1 := by
  simp [ptInsert]

theorem keys_ptInsert_nodup {α : Type} (t : List (Int × α)) (p : Int) (v : α)
    (hND : (t.map Prod.fst).Nodup) : ((ptInsert t p v).map Prod.fst).Nodup := by
  refine List.nodup_cons.mpr ⟨?_, keys_ptErase_nodup t p hND⟩
  exact notmem_keys_of_lookup_none _ p (ptLookup_erase_self t p)

theorem mem_ptInsert {α : Type} (t : List (Int × α)) (p : Int) (v : α) (e : Int × α) :
    e ∈ ptInsert t p v ↔ e = (p, v) ∨ (e ∈ t ∧ e.1 ≠ p) := by
  simp [ptInsert, mem_ptErase]

/-! ### Preservation of the invariant -/

/-- Core preservation lemma for the shared frame-acquisition tail of
NewPgImp and of the FetchPgImp miss path: installing page pid into an
acquired frame f whose old page-table key is q (erased first, exactly as
the source does) preserves the invariant, for any replacer outcome R whose
eligible frames still satisfy the tracking condition away from f. -/
theorem INV_acquire (s : BPM) (q pid : Int) (f : Nat) (pg1 : Page)
    (R : LRUReplacer) (W D : List (Int × Int))
    (hlen : s.pages.length = s.poolSize)
    (hcount3 : s.freeList.length + (ptErase s.pageTable q).length + 1 = s.poolSize)
    (hfree : ∀ g ∈ s.freeList, g < s.poolSize ∧ (pageAt s g).pageId = INVALID_PAGE_ID)
    (hfreeND : s.freeList.Nodup)
    (hffree : f ∉ s.freeList)
    (hf : f < s.poolSize)
    (htab : ∀ e ∈ s.pageTable,
      e.2 < s.poolSize ∧ (pageAt s e.2).pageId = e.1 ∧ 0 ≤ e.1 ∧ e.1 < s.nextPageId)
    (hkeyND : (s.pageTable.map Prod.fst).Nodup)
    (hq : (pageAt s f).pageId = q)
    (hkeyq : ptLookup s.pageTable q = none ∨ ptLookup s.pageTable q = some f)
    (hlruR : ∀ g ∈ R.pinLists, g < s.poolSize ∧
      (g ∉ s.freeList → g ≠ f → ptLookup s.pageTable (pageAt s g).pageId = some g))
    (hlruRnd : R.pinLists.Nodup)
    (hRnum : R.numPages = s.poolSize)
    (halloc : ∀ p ∈ s.allocated, 0 ≤ p ∧ p < s.nextPageId)
    (hnext : 0 ≤ s.nextPageId)
    (hinst : 0 < s.numInstances)
    (hpg1 : pg1.pageId = pid)
    (hpid0 : 0 ≤ pid) (hpidn : pid < s.nextPageId)
    (hmiss : ptLookup s.pageTable pid = none) :
    INV { s with pages := s.pages.set f pg1,
                 pageTable := ptInsert (ptErase s.pageTable q) pid f,
                 replacer := R, writes := W, disk := D } := by
  have hflen : f < s.pages.length := by rw [hlen]; exact hf
  have hlook1pid : ptLookup (ptErase s.pageTable q) pid = none := by
    by_cases hpq : pid = q
    · rw [hpq]; exact ptLookup_erase_self _ _
    · rw [ptLookup_erase_ne _ _ _ hpq]; exact hmiss
  have hT2 : ptInsert (ptErase s.pageTable q) pid f
      = (pid, f) :: ptErase s.pageTable q := by
    rw [ptInsert, ptErase_eq_of_lookup_none _ _ hlook1pid]
  refine ⟨?_, ?_, ?_, ?_, ?_, ?_, ?_, ?_, ?_, ?_, ?_, ?_⟩
  · simpa [List.length_set] using hlen
  · exact hRnum
  · show s.freeList.length + (ptInsert (ptErase s.pageTable q) pid f).length = s.poolSize
    rw [hT2]
    simpa using hcount3
  · intro g hg
    obtain ⟨hg1, hg2⟩ := hfree g hg
    have hgf : g ≠ f := fun hc => hffree (hc ▸ hg)
    refine ⟨hg1, ?_⟩
    show ((s.pages.set f pg1).getD g emptyPage).pageId = INVALID_PAGE_ID
    rw [getD_set_ne _ _ _ _ _ hgf]
    exact hg2
  · exact hfreeND
  · intro e he
    rw [hT2, List.mem_cons] at he
    cases he with
    | inl hepf =>
      subst hepf
      refine ⟨hf, ?_, hpid0, hpidn⟩
      show ((s.pages.set f pg1).getD f emptyPage).pageId = pid
      rw [getD_set_self _ _ _ _ hflen]
      exact hpg1
    | inr he1 =>
      obtain ⟨het, hekey⟩ := (mem_ptErase _ _ _).mp he1
      obtain ⟨hb, hacc, hk0, hkn⟩ := htab e het
      have hef : e.2 ≠ f := by
        intro hc
        exact hekey (by rw [← hacc, hc, hq])
      refine ⟨hb, ?_, hk0, hkn⟩
      show ((s.pages.set f pg1).getD e.2 emptyPage).pageId = e.1
      rw [getD_set_ne _ _ _ _ _ hef]
      exact hacc
  · exact keys_ptInsert_nodup _ _ _ (keys_ptErase_nodup _ _ hkeyND)
  · intro g hg
    obtain ⟨hg1, hg2⟩ := hlruR g hg
    refine ⟨hg1, ?_⟩
    intro hgfree
    by_cases hgf : g = f
    · subst hgf
      show ptLookup (ptInsert (ptErase s.pageTable q) pid g)
        (((s.pages.set g pg1).getD g emptyPage).pageId) = some g
      rw [getD_set_self _ _ _ _ hflen, hpg1]
      exact ptLookup_insert_self _ _ _
    · have hlook : ptLookup s.pageTable (pageAt s g).pageId = some g := hg2 hgfree hgf
      have hkq : (pageAt s g).pageId ≠ q := by
        intro hc
        rw [hc] at hlook
        cases hkeyq with
        | inl hn => rw [hn] at hlook; exact Option.noConfusion hlook
        | inr hsf =>
          rw [hsf] at hlook
          exact hgf (by injection hlook with hinj; exact hinj.symm)
      have hkpid : (pageAt s g).pageId ≠ pid := by
        intro hc
        rw [hc, hmiss] at hlook
        exact Option.noConfusion hlook
      show ptLookup (ptInsert (ptErase s.pageTable q) pid f)
        (((s.pages.set f pg1).getD g emptyPage).pageId) = some g
      rw [getD_set_ne _ _ _ _ _ hgf,
          ptLookup_insert_ne _ _ _ _
            (show (s.pages.getD g emptyPage).pageId ≠ pid from hkpid),
          ptLookup_erase_ne _ _ _
            (show (s.pages.getD g emptyPage).pageId ≠ q from hkq)]
      exact hlook
  · exact hlruRnd
  · exact halloc
  · exact hnext
  · exact hinst

theorem pin_numPages (r : LRUReplacer) (f : Nat) : (r.pin f).numPages = r.numPages := by
  unfold LRUReplacer.pin
  split <;> rfl

theorem unpin_numPages (r : LRUReplacer) (f : Nat) : (r.unpin f).numPages = r.numPages := by
  unfold LRUReplacer.unpin
  split
  · rfl
  · split <;> rfl

theorem mem_pin_subset (r : LRUReplacer) (f : Nat) :
    ∀ g ∈ (r.pin f).pinLists, g ∈ r.pinLists := by
  intro g hg
  unfold LRUReplacer.pin at hg
  by_cases hm : f ∈ r.pinLists
  · rw [if_pos hm] at hg
    exact List.mem_of_mem_erase hg
  · rwa [if_neg hm] at hg

theorem pin_pinLists_nodup (r : LRUReplacer) (f : Nat) (h : r.pinLists.Nodup) :
    (r.pin f).pinLists.Nodup := by
  unfold LRUReplacer.pin
  by_cases hm : f ∈ r.pinLists
  · rw [if_pos hm]
    exact h.erase f
  · rwa [if_neg hm]

theorem mem_pin_ne (r : LRUReplacer) (f : Nat) (h : r.pinLists.Nodup) :
    ∀ g ∈ (r.pin f).pinLists, g ≠ f := by
  intro g hg
  unfold LRUReplacer.pin at hg
  by_cases hm : f ∈ r.pinLists
  · rw [if_pos hm] at hg
    intro hc
    exact h.not_mem_erase (hc ▸ hg)
  · rw [if_neg hm] at hg
    intro hc
    exact hm (hc ▸ hg)

/-- Invariant transfer along any state change that keeps the structural
fields and the page-id of every frame, and only shrinks the eligible set. -/
theorem INV_transfer (s s2 : BPM) (h : INV s)
    (hpool : s2.poolSize = s.poolSize)
    (hni : s2.numInstances = s.numInstances)
    (hnp : s2.nextPageId = s.nextPageId)
    (hplen : s2.pages.length = s.pages.length)
    (hid : ∀ i, (pageAt s2 i).pageId = (pageAt s i).pageId)
    (hfl : s2.freeList = s.freeList)
    (hpt : s2.pageTable = s.pageTable)
    (hsub : ∀ g ∈ s2.replacer.pinLists, g ∈ s.replacer.pinLists)
    (hRnd : s2.replacer.pinLists.Nodup)
    (hRnum : s2.replacer.numPages = s.replacer.numPages)
    (hal : s2.allocated = s.allocated) : INV s2 := by
  obtain ⟨hlen, hrep, hcount, hfree, hfreeND, htab, hkeyND, hlru, hlruND, halloc, hnext, hinst⟩ := h
  refine ⟨?_, ?_, ?_, ?_, ?_, ?_, ?_, ?_, ?_, ?_, ?_, ?_⟩
  · rw [hplen, hpool]; exact hlen
  · rw [hRnum, hpool]; exact hrep
  · rw [hfl, hpt, hpool]; exact hcount
  · intro g hg
    rw [hfl] at hg
    obtain ⟨h1, h2⟩ := hfree g hg
    exact ⟨by rw [hpool]; exact h1, by rw [hid g]; exact h2⟩
  · rw [hfl]; exact hfreeND
  · intro e he
    rw [hpt] at he
    obtain ⟨h1, h2, h3, h4⟩ := htab e he
    exact ⟨by rw [hpool]; exact h1, by rw [hid e.2]; exact h2, h3, by rw [hnp]; exact h4⟩
  · rw [hpt]; exact hkeyND
  · intro g hg
    obtain ⟨h1, h2⟩ := hlru g (hsub g hg)
    refine ⟨by rw [hpool]; exact h1, ?_⟩
    intro hgf
    rw [hfl] at hgf
    rw [hpt, hid g]
    exact h2 hgf
  · exact hRnd
  · intro p hp
    rw [hal] at hp
    rw [hnp]
    exact halloc p hp
  · rw [hnp]; exact hnext
  · rw [hni]; exact hinst

theorem INV_deletePg (s : BPM) (pid : Int) (h : INV s) : INV (s.deletePg pid).2 := by
  obtain ⟨hlen, hrep, hcount, hfree, hfreeND, htab, hkeyND, hlru, hlruND, halloc, hnext, hinst⟩ := h
  cases hl : ptLookup s.pageTable pid with
  | none =>
    have heq : (s.deletePg pid).2 = s := by
      unfold BPM.deletePg
      rw [hl]
    rw [heq]
    exact ⟨hlen, hrep, hcount, hfree, hfreeND, htab, hkeyND, hlru, hlruND, halloc, hnext, hinst⟩
  | some f =>
    obtain ⟨hfb, hacc, hpid0, hpidn⟩ := htab (pid, f) (ptLookup_mem _ _ _ hl)
    by_cases hp : (pageAt s f).pinCount ≠ 0
    · have heq : (s.deletePg pid).2 = s := by
        unfold BPM.deletePg
        rw [hl]
        dsimp only
        rw [if_pos hp]
      rw [heq]
      exact ⟨hlen, hrep, hcount, hfree, hfreeND, htab, hkeyND, hlru, hlruND, halloc, hnext, hinst⟩
    · have heq : (s.deletePg pid).2 =
        { s with pages := s.pages.set f { pageAt s f with pageId := INVALID_PAGE_ID,
                                                          isDirty := false },
                 freeList := s.freeList ++ [f],
                 pageTable := ptErase s.pageTable pid } := by
        unfold BPM.deletePg
        rw [hl]
        dsimp only
        rw [if_neg hp]
      rw [heq]
      have hflen : f < s.pages.length := by rw [hlen]; exact hfb
      have hffree : f ∉ s.freeList := by
        intro hc
        have h2 := (hfree f hc).2
        dsimp only at hacc
        rw [hacc] at h2
        rw [INVALID_PAGE_ID] at h2
        omega
      refine ⟨?_, ?_, ?_, ?_, ?_, ?_, ?_, ?_, ?_, ?_, ?_, ?_⟩
      · simpa [List.length_set] using hlen
      · exact hrep
      · show (s.freeList ++ [f]).length + (ptErase s.pageTable pid).length = s.poolSize
        have := length_ptErase_of_lookup_some _ _ _ hkeyND hl
        rw [List.length_append]
        simp only [List.length_singleton]
        omega
      · intro g hg
        rw [List.mem_append] at hg
        cases hg with
        | inl hg1 =>
          obtain ⟨hb, hpg⟩ := hfree g hg1
          have hgf : g ≠ f := fun hc => hffree (hc ▸ hg1)
          refine ⟨hb, ?_⟩
          show ((s.pages.set f _).getD g emptyPage).pageId = INVALID_PAGE_ID
          rw [getD_set_ne _ _ _ _ _ hgf]
          exact hpg
        | inr hg1 =>
          obtain rfl : g = f := by simpa using hg1
          refine ⟨hfb, ?_⟩
          show ((s.pages.set g _).getD g emptyPage).pageId = INVALID_PAGE_ID
          rw [getD_set_self _ _ _ _ hflen]
      · rw [List.nodup_append]
        refine ⟨hfreeND, List.nodup_singleton f, ?_⟩
        intro g hg1 hg2
        obtain rfl : g = f := by simpa using hg2
        exact hffree hg1
      · intro e he
        obtain ⟨het, hekey⟩ := (mem_ptErase _ _ _).mp he
        obtain ⟨hb, hacc2, hk0, hkn⟩ := htab e het
        have hef : e.2 ≠ f := by
          intro hc
          apply hekey
          rw [← hacc2, hc]
          dsimp only at hacc
          rw [hacc]
        refine ⟨hb, ?_, hk0, hkn⟩
        show ((s.pages.set f _).getD e.2 emptyPage).pageId = e.1
        rw [getD_set_ne _ _ _ _ _ hef]
        exact hacc2
      · exact keys_ptErase_nodup _ _ hkeyND
      · intro g hg
        obtain ⟨hb, h2⟩ := hlru g hg
        refine ⟨hb, ?_⟩
        intro hgf
        rw [List.mem_append] at hgf
        push_neg at hgf
        obtain ⟨hgf1, hgf2⟩ := hgf
        have hgfne : g ≠ f := by
          intro hc
          exact hgf2 (by rw [hc]; exact List.mem_singleton_self f)
        have hlook := h2 hgf1
        have hkey : (pageAt s g).pageId ≠ pid := by
          intro hc
          rw [hc, hl] at hlook
          exact hgfne (by injection hlook with hinj; exact hinj.symm)
        show ptLookup (ptErase s.pageTable pid)
          (((s.pages.set f _).getD g emptyPage).pageId) = some g
        rw [getD_set_ne _ _ _ _ _ hgfne,
            ptLookup_erase_ne _ _ _
              (show (s.pages.getD g emptyPage).pageId ≠ pid from hkey)]
        exact hlook
      · exact hlruND
      · exact halloc
      · exact hnext
      · exact hinst

theorem clearDirty_eq_self (pg : Page) (h : pg.isDirty = false) :
    { pg with isDirty := false } = pg := by
  cases pg with
  | mk a b c e =>
    cases c
    · rfl
    · exact absurd h (by simp)

theorem INV_unpinPg (s : BPM) (pid : Int) (d : Bool) (h : INV s) : INV (s.unpinPg pid d).2 := by
  cases hl : ptLookup s.pageTable pid with
  | none =>
    have heq : (s.unpinPg pid d).2 = s := by
      unfold BPM.unpinPg
      rw [hl]
    rw [heq]
    exact h
  | some f =>
    obtain ⟨hfb, hacc, hpid0, hpidn⟩ := h.htab (pid, f) (ptLookup_mem _ _ _ hl)
    dsimp only at hacc
    have hflen : f < s.pages.length := by rw [h.hlen]; exact hfb
    have hffree : f ∉ s.freeList := by
      intro hc
      have h2 := (h.hfree f hc).2
      rw [hacc, INVALID_PAGE_ID] at h2
      omega
    by_cases hp : (pageAt s f).pinCount ≤ 0
    · have heq : (s.unpinPg pid d).2 = s := by
        unfold BPM.unpinPg
        rw [hl]
        dsimp only
        rw [if_pos hp]
      rw [heq]
      exact h
    · have hid1 : ∀ i : Nat,
          ((s.pages.set f { pageAt s f with isDirty := (pageAt s f).isDirty || d,
                                            pinCount := (pageAt s f).pinCount - 1 }).getD
            i emptyPage).pageId = (pageAt s i).pageId := by
        intro i
        by_cases hif : i = f
        · subst hif
          rw [getD_set_self _ _ _ _ hflen]
        · rw [getD_set_ne _ _ _ _ _ hif]
          rfl
      by_cases hz : (pageAt s f).pinCount - 1 = 0
      · have heq : (s.unpinPg pid d).2 =
          { s with pages := s.pages.set f { pageAt s f with
                              isDirty := (pageAt s f).isDirty || d,
                              pinCount := (pageAt s f).pinCount - 1 },
                   replacer := s.replacer.unpin f } := by
          unfold BPM.unpinPg
          rw [hl]
          dsimp only
          rw [if_neg hp]
          rw [if_pos hz]
        rw [heq]
        by_cases hm : f ∈ s.replacer.pinLists
        · refine INV_transfer s _ h rfl rfl rfl (List.length_set _ _ _) hid1 rfl rfl
            ?_ ?_ ?_ rfl
          · show ∀ g ∈ (s.replacer.unpin f).pinLists, g ∈ s.replacer.pinLists
            unfold LRUReplacer.unpin
            rw [if_pos hm]
            exact fun g hg => hg
          · show (s.replacer.unpin f).pinLists.Nodup
            unfold LRUReplacer.unpin
            rw [if_pos hm]
            exact h.hlruND
          · exact unpin_numPages _ _
        · by_cases hcap : s.replacer.pinLists.length < s.replacer.numPages
          · have hrw : (s.replacer.unpin f).pinLists = s.replacer.pinLists ++ [f] := by
              unfold LRUReplacer.unpin
              rw [if_neg hm, if_pos hcap]
            refine ⟨?_, ?_, ?_, ?_, ?_, ?_, ?_, ?_, ?_, ?_, ?_, ?_⟩
            · simpa [List.length_set] using h.hlen
            · show (s.replacer.unpin f).numPages = s.poolSize
              rw [unpin_numPages]
              exact h.hrep
            · exact h.hcount
            · intro g hg
              obtain ⟨hb, hpg⟩ := h.hfree g hg
              exact ⟨hb, (hid1 g).trans hpg⟩
            · exact h.hfreeND
            · intro e he
              obtain ⟨hb, hacc2, hk0, hkn⟩ := h.htab e he
              exact ⟨hb, (hid1 e.2).trans hacc2, hk0, hkn⟩
            · exact h.hkeyND
            · intro g hg
              have hg2 : g ∈ s.replacer.pinLists ++ [f] := hrw ▸ hg
              rw [List.mem_append] at hg2
              cases hg2 with
              | inl hg1 =>
                obtain ⟨hb, h2⟩ := h.hlru g hg1
                refine ⟨hb, ?_⟩
                intro hgf
                exact (congrArg (ptLookup s.pageTable) (hid1 g)).trans (h2 hgf)
              | inr hg1 =>
                obtain rfl : g = f := by simpa using hg1
                refine ⟨hfb, ?_⟩
                intro _
                exact (congrArg (ptLookup s.pageTable) ((hid1 g).trans hacc)).trans hl
            · show ((s.replacer.unpin f).pinLists).Nodup
              rw [hrw, List.nodup_append]
              refine ⟨h.hlruND, List.nodup_singleton f, ?_⟩
              intro g hg1 hg2
              obtain rfl : g = f := by simpa using hg2
              exact hm hg1
            · exact h.halloc
            · exact h.hnext
            · exact h.hinst
          · refine INV_transfer s _ h rfl rfl rfl (List.length_set _ _ _) hid1 rfl rfl
              ?_ ?_ ?_ rfl
            · show ∀ g ∈ (s.replacer.unpin f).pinLists, g ∈ s.replacer.pinLists
              unfold LRUReplacer.unpin
              rw [if_neg hm, if_neg hcap]
              exact fun g hg => hg
            · show (s.replacer.unpin f).pinLists.Nodup
              unfold LRUReplacer.unpin
              rw [if_neg hm, if_neg hcap]
              exact h.hlruND
            · exact unpin_numPages _ _
      · have heq : (s.unpinPg pid d).2 =
          { s with pages := s.pages.set f { pageAt s f with
                              isDirty := (pageAt s f).isDirty || d,
                              pinCount := (pageAt s f).pinCount - 1 } } := by
          unfold BPM.unpinPg
          rw [hl]
          dsimp only
          rw [if_neg hp]
          rw [if_neg hz]
        rw [heq]
        exact INV_transfer s _ h rfl rfl rfl (List.length_set _ _ _) hid1 rfl rfl
          (fun g hg => hg) h.hlruND rfl rfl

theorem INV_flushPg (s : BPM) (pid : Int) (h : INV s) : INV (s.flushPg pid).2 := by
  cases hl : ptLookup s.pageTable pid with
  | none =>
    have heq : (s.flushPg pid).2 = s := by
      unfold BPM.flushPg
      rw [hl]
    rw [heq]
    exact h
  | some f =>
    obtain ⟨hfb, hacc, hpid0, hpidn⟩ := h.htab (pid, f) (ptLookup_mem _ _ _ hl)
    have hflen : f < s.pages.length := by rw [h.hlen]; exact hfb
    by_cases hs : pid = INVALID_PAGE_ID
    · have heq : (s.flushPg pid).2 = s := by
        unfold BPM.flushPg
        rw [hl]
        dsimp only
        rw [if_pos hs]
      rw [heq]
      exact h
    · by_cases hd : (pageAt s f).isDirty = true
      · have heq : (s.flushPg pid).2 =
          { s with writes := s.writes ++ [(pid, (pageAt s f).data)],
                   disk := diskWrite s.disk pid (pageAt s f).data,
                   pages := s.pages.set f { pageAt s f with isDirty := false } } := by
          unfold BPM.flushPg
          rw [hl]
          dsimp only
          rw [if_neg hs]
          rw [if_pos hd]
        rw [heq]
        have hid1 : ∀ i : Nat,
            ((s.pages.set f { pageAt s f with isDirty := false }).getD i emptyPage).pageId
              = (pageAt s i).pageId := by
          intro i
          by_cases hif : i = f
          · subst hif
            rw [getD_set_self _ _ _ _ hflen]
          · rw [getD_set_ne _ _ _ _ _ hif]
            rfl
        exact INV_transfer s _ h rfl rfl rfl (List.length_set _ _ _) hid1 rfl rfl
          (fun g hg => hg) h.hlruND rfl rfl
      · have heq : (s.flushPg pid).2 = s := by
          unfold BPM.flushPg
          rw [hl]
          dsimp only
          rw [if_neg hs]
          rw [if_neg hd]
        rw [heq]
        exact h

theorem flushFrame_poolSize (s : BPM) (i : Nat) : (flushFrame s i).poolSize = s.poolSize := by
  unfold flushFrame
  dsimp only
  split <;> rfl

theorem flushFrame_numInstances (s : BPM) (i : Nat) :
    (flushFrame s i).numInstances = s.numInstances := by
  unfold flushFrame
  dsimp only
  split <;> rfl

theorem flushFrame_nextPageId (s : BPM) (i : Nat) :
    (flushFrame s i).nextPageId = s.nextPageId := by
  unfold flushFrame
  dsimp only
  split <;> rfl

theorem flushFrame_freeList (s : BPM) (i : Nat) : (flushFrame s i).freeList = s.freeList := by
  unfold flushFrame
  dsimp only
  split <;> rfl

theorem flushFrame_pageTable (s : BPM) (i : Nat) : (flushFrame s i).pageTable = s.pageTable := by
  unfold flushFrame
  dsimp only
  split <;> rfl

theorem flushFrame_replacer (s : BPM) (i : Nat) : (flushFrame s i).replacer = s.replacer := by
  unfold flushFrame
  dsimp only
  split <;> rfl

theorem flushFrame_allocated (s : BPM) (i : Nat) : (flushFrame s i).allocated = s.allocated := by
  unfold flushFrame
  dsimp only
  split <;> rfl

theorem flushFrame_pages_length (s : BPM) (i : Nat) :
    (flushFrame s i).pages.length = s.pages.length := by
  unfold flushFrame
  dsimp only
  split
  · exact List.length_set _ _ _
  · rfl

theorem flushFrame_pageAt_ne (s : BPM) (i j : Nat) (h : j ≠ i) :
    pageAt (flushFrame s i) j = pageAt s j := by
  unfold flushFrame
  dsimp only
  split
  · show (s.pages.set i _).getD j emptyPage = pageAt s j
    rw [getD_set_ne _ _ _ _ _ h]
    rfl
  · rfl

theorem flushFrame_pageAt_self (s : BPM) (i : Nat) :
    pageAt (flushFrame s i) i = { pageAt s i with isDirty := false } := by
  unfold flushFrame
  dsimp only
  by_cases hd : (pageAt s i).isDirty = true
  · rw [if_pos hd]
    have hlen : i < s.pages.length := by
      by_contra hc
      push_neg at hc
      have hpe : pageAt s i = emptyPage := by
        unfold pageAt
        exact List.getD_eq_default _ _ hc
      rw [hpe] at hd
      exact Bool.noConfusion hd
    show (s.pages.set i _).getD i emptyPage = _
    rw [getD_set_self _ _ _ _ hlen]
  · rw [if_neg hd]
    have hfd : (pageAt s i).isDirty = false := by
      revert hd
      cases (pageAt s i).isDirty <;> simp
    exact (clearDirty_eq_self _ hfd).symm

theorem flushFrames_poolSize (L : List Nat) : ∀ s : BPM,
    (flushFrames s L).poolSize = s.poolSize := by
  induction L with
  | nil => intro s; rfl
  | cons i rest ih =>
    intro s
    rw [flushFrames, ih, flushFrame_poolSize]

theorem flushFrames_numInstances (L : List Nat) : ∀ s : BPM,
    (flushFrames s L).numInstances = s.numInstances := by
  induction L with
  | nil => intro s; rfl
  | cons i rest ih =>
    intro s
    rw [flushFrames, ih, flushFrame_numInstances]

theorem flushFrames_nextPageId (L : List Nat) : ∀ s : BPM,
    (flushFrames s L).nextPageId = s.nextPageId := by
  induction L with
  | nil => intro s; rfl
  | cons i rest ih =>
    intro s
    rw [flushFrames, ih, flushFrame_nextPageId]

theorem flushFrames_freeList (L : List Nat) : ∀ s : BPM,
    (flushFrames s L).freeList = s.freeList := by
  induction L with
  | nil => intro s; rfl
  | cons i rest ih =>
    intro s
    rw [flushFrames, ih, flushFrame_freeList]

theorem flushFrames_pageTable (L : List Nat) : ∀ s : BPM,
    (flushFrames s L).pageTable = s.pageTable := by
  induction L with
  | nil => intro s; rfl
  | cons i rest ih =>
    intro s
    rw [flushFrames, ih, flushFrame_pageTable]

theorem flushFrames_replacer (L : List Nat) : ∀ s : BPM,
    (flushFrames s L).replacer = s.replacer := by
  induction L with
  | nil => intro s; rfl
  | cons i rest ih =>
    intro s
    rw [flushFrames, ih, flushFrame_replacer]

theorem flushFrames_allocated (L : List Nat) : ∀ s : BPM,
    (flushFrames s L).allocated = s.allocated := by
  induction L with
  | nil => intro s; rfl
  | cons i rest ih =>
    intro s
    rw [flushFrames, ih, flushFrame_allocated]

theorem flushFrames_pages_length (L : List Nat) : ∀ s : BPM,
    (flushFrames s L).pages.length = s.pages.length := by
  induction L with
  | nil => intro s; rfl
  | cons i rest ih =>
    intro s
    rw [flushFrames, ih, flushFrame_pages_length]

theorem flushFrames_pageAt_not_mem (L : List Nat) : ∀ (s : BPM) (j : Nat), j ∉ L →
    pageAt (flushFrames s L) j = pageAt s j := by
  induction L with
  | nil => intro s j _; rfl
  | cons i rest ih =>
    intro s j hj
    rw [flushFrames, ih _ _ (fun hc => hj (List.mem_cons_of_mem _ hc))]
    exact flushFrame_pageAt_ne s i j (fun hc => hj (hc ▸ List.mem_cons_self i rest))

theorem flushFrames_pageAt_mem (L : List Nat) : ∀ (s : BPM) (j : Nat), L.Nodup → j ∈ L →
    pageAt (flushFrames s L) j = { pageAt s j with isDirty := false } := by
  induction L with
  | nil => intro s j _ hj; simp at hj
  | cons i rest ih =>
    intro s j hnd hj
    rw [List.nodup_cons] at hnd
    obtain ⟨hni, hndr⟩ := hnd
    rw [List.mem_cons] at hj
    rw [flushFrames]
    cases hj with
    | inl hji =>
      subst hji
      rw [flushFrames_pageAt_not_mem _ _ _ hni]
      exact flushFrame_pageAt_self s j
    | inr hjr =>
      have hjne : j ≠ i := fun hc => hni (hc ▸ hjr)
      rw [ih _ _ hndr hjr, flushFrame_pageAt_ne s i j hjne]

theorem flushFrames_writes (L : List Nat) : ∀ s : BPM, L.Nodup →
    (flushFrames s L).writes = s.writes ++
      (L.filter (fun i => (pageAt s i).isDirty)).map
        (fun i => ((pageAt s i).pageId, (pageAt s i).data)) := by
  induction L with
  | nil => intro s _; simp [flushFrames]
  | cons i rest ih =>
    intro s hnd
    rw [List.nodup_cons] at hnd
    obtain ⟨hni, hndr⟩ := hnd
    rw [flushFrames, ih _ hndr]
    have hcong : ∀ j ∈ rest, pageAt (flushFrame s i) j = pageAt s j := by
      intro j hj
      exact flushFrame_pageAt_ne s i j (fun hc => hni (hc ▸ hj))
    have hfil : rest.filter (fun j => (pageAt (flushFrame s i) j).isDirty)
        = rest.filter (fun j => (pageAt s j).isDirty) := by
      apply List.filter_congr
      intro j hj
      rw [hcong j hj]
    have hmap : (rest.filter (fun j => (pageAt s j).isDirty)).map
          (fun j => ((pageAt (flushFrame s i) j).pageId, (pageAt (flushFrame s i) j).data))
        = (rest.filter (fun j => (pageAt s j).isDirty)).map
          (fun j => ((pageAt s j).pageId, (pageAt s j).data)) := by
      apply List.map_congr_left
      intro j hj
      rw [hcong j (List.mem_of_mem_filter hj)]
    rw [hfil, hmap]
    by_cases hd : (pageAt s i).isDirty = true
    · have hw : (flushFrame s i).writes
          = s.writes ++ [((pageAt s i).pageId, (pageAt s i).data)] := by
        unfold flushFrame
        dsimp only
        rw [if_pos hd]
      rw [hw]
      simp [List.filter_cons, hd, List.append_assoc]
    · have hw : (flushFrame s i).writes = s.writes := by
        unfold flushFrame
        rw [if_neg hd]
      rw [hw]
      simp [List.filter_cons, hd]

theorem INV_flushAll (s : BPM) (h : INV s) : INV s.flushAll := by
  refine INV_transfer s _ h (flushFrames_poolSize _ _) (flushFrames_numInstances _ _)
    (flushFrames_nextPageId _ _) (flushFrames_pages_length _ _) ?_
    (flushFrames_freeList _ _) (flushFrames_pageTable _ _) ?_ ?_ ?_
    (flushFrames_allocated _ _)
  · intro i
    by_cases hm : i ∈ List.range s.poolSize
    · rw [BPM.flushAll, flushFrames_pageAt_mem _ _ _ (List.nodup_range _) hm]
    · rw [BPM.flushAll, flushFrames_pageAt_not_mem _ _ _ hm]
  · intro g hg
    rwa [BPM.flushAll, flushFrames_replacer] at hg
  · rw [BPM.flushAll, flushFrames_replacer]
    exact h.hlruND
  · rw [BPM.flushAll, flushFrames_replacer]

/-- Keys of a table whose entries all have nonnegative keys never match the
sentinel, and bounded keys never match the next page id. -/
theorem ptLookup_none_of_keys_lt (s : BPM) (h : INV s) (c : Int) (hc : s.nextPageId ≤ c) :
    ptLookup s.pageTable c = none := by
  rw [ptLookup_eq_none_iff]
  intro e he hq
  have := (h.htab e he).2.2.2
  omega

theorem ptLookup_neg_none (s : BPM) (h : INV s) (c : Int) (hc : c < 0) :
    ptLookup s.pageTable c = none := by
  rw [ptLookup_eq_none_iff]
  intro e he hq
  have := (h.htab e he).2.2.1
  omega

theorem INV_fetchFinish (u : BPM) (pid : Int) (f : Nat)
    (hlen : u.pages.length = u.poolSize)
    (hrep : u.replacer.numPages = u.poolSize)
    (hcount3 : u.freeList.length + (ptErase u.pageTable (pageAt u f).pageId).length + 1
      = u.poolSize)
    (hfree : ∀ g ∈ u.freeList, g < u.poolSize ∧ (pageAt u g).pageId = INVALID_PAGE_ID)
    (hfreeND : u.freeList.Nodup)
    (hffree : f ∉ u.freeList)
    (hf : f < u.poolSize)
    (htab : ∀ e ∈ u.pageTable,
      e.2 < u.poolSize ∧ (pageAt u e.2).pageId = e.1 ∧ 0 ≤ e.1 ∧ e.1 < u.nextPageId)
    (hkeyND : (u.pageTable.map Prod.fst).Nodup)
    (hkeyf : ptLookup u.pageTable (pageAt u f).pageId = none ∨
             ptLookup u.pageTable (pageAt u f).pageId = some f)
    (hlruX : ∀ g ∈ u.replacer.pinLists, g < u.poolSize ∧
      (g ∉ u.freeList → g ≠ f → ptLookup u.pageTable (pageAt u g).pageId = some g))
    (hlruND : u.replacer.pinLists.Nodup)
    (halloc : ∀ p ∈ u.allocated, 0 ≤ p ∧ p < u.nextPageId)
    (hnext : 0 ≤ u.nextPageId)
    (hinst : 0 < u.numInstances)
    (hpid0 : 0 ≤ pid) (hpidn : pid < u.nextPageId)
    (hmiss : ptLookup u.pageTable pid = none) :
    INV (fetchFinish u pid f).2 := by
  by_cases hd : (pageAt u f).isDirty = true
  · have heq : (fetchFinish u pid f).2 =
      { u with writes := u.writes ++ [((pageAt u f).pageId, (pageAt u f).data)],
               disk := diskWrite u.disk (pageAt u f).pageId (pageAt u f).data,
               pageTable := ptInsert (ptErase u.pageTable (pageAt u f).pageId) pid f,
               pages := u.pages.set f { pageAt u f with pageId := pid, isDirty := false, pinCount := 1, data := diskRead (diskWrite u.disk (pageAt u f).pageId (pageAt u f).data) pid } } := by
      unfold fetchFinish
      dsimp only
      rw [if_pos hd]
    rw [heq]
    exact INV_acquire u _ pid f _ u.replacer _ _ hlen hcount3 hfree hfreeND hffree hf htab
      hkeyND rfl hkeyf hlruX hlruND hrep halloc hnext hinst rfl hpid0 hpidn hmiss
  · have heq : (fetchFinish u pid f).2 =
      { u with pageTable := ptInsert (ptErase u.pageTable (pageAt u f).pageId) pid f,
               pages := u.pages.set f { pageAt u f with pageId := pid, isDirty := false, pinCount := 1, data := diskRead u.disk pid } } := by
      unfold fetchFinish
      dsimp only
      rw [if_neg hd]
    rw [heq]
    exact INV_acquire u _ pid f _ u.replacer u.writes u.disk hlen hcount3 hfree hfreeND
      hffree hf htab hkeyND rfl hkeyf hlruX hlruND hrep halloc hnext hinst rfl
      hpid0 hpidn hmiss

theorem INV_finishNew (u : BPM) (pid : Int) (f : Nat)
    (hlen : u.pages.length = u.poolSize)
    (hrep : u.replacer.numPages = u.poolSize)
    (hcount2 : u.freeList.length + u.pageTable.length + 1 = u.poolSize)
    (hfree : ∀ g ∈ u.freeList, g < u.poolSize ∧ (pageAt u g).pageId = INVALID_PAGE_ID)
    (hfreeND : u.freeList.Nodup)
    (hffree : f ∉ u.freeList)
    (hf : f < u.poolSize)
    (htab : ∀ e ∈ u.pageTable,
      e.2 < u.poolSize ∧ (pageAt u e.2).pageId = e.1 ∧ 0 ≤ e.1 ∧ e.1 < u.nextPageId)
    (hkeyND : (u.pageTable.map Prod.fst).Nodup)
    (hmissq : ptLookup u.pageTable (pageAt u f).pageId = none)
    (hlruX : ∀ g ∈ u.replacer.pinLists, g < u.poolSize ∧
      (g ∉ u.freeList → g ≠ f → ptLookup u.pageTable (pageAt u g).pageId = some g))
    (hlruND : u.replacer.pinLists.Nodup)
    (halloc : ∀ p ∈ u.allocated, 0 ≤ p ∧ p < u.nextPageId)
    (hnext : 0 ≤ u.nextPageId)
    (hinst : 0 < u.numInstances)
    (hpid0 : 0 ≤ pid) (hpidn : pid < u.nextPageId)
    (hmiss : ptLookup u.pageTable pid = none) :
    INV (finishNew u pid f) := by
  have heq : finishNew u pid f =
    { u with pages := u.pages.set f { pageAt u f with isDirty := false, pinCount := 1, pageId := pid, data := 0 },
             pageTable := ptInsert u.pageTable pid f,
             replacer := u.replacer.pin f } := by
    unfold finishNew
    dsimp only
  rw [heq,
    show ptInsert u.pageTable pid f
      = ptInsert (ptErase u.pageTable (pageAt u f).pageId) pid f from by
        rw [ptErase_eq_of_lookup_none _ _ hmissq]]
  have hcount3 : u.freeList.length + (ptErase u.pageTable (pageAt u f).pageId).length + 1
      = u.poolSize := by
    rw [ptErase_eq_of_lookup_none _ _ hmissq]
    exact hcount2
  refine INV_acquire u _ pid f _ (u.replacer.pin f) u.writes u.disk hlen hcount3 hfree
    hfreeND hffree hf htab hkeyND rfl (Or.inl hmissq) ?_ (pin_pinLists_nodup _ _ hlruND)
    ?_ halloc hnext hinst rfl hpid0 hpidn hmiss
  · intro g hg
    have hg1 := mem_pin_subset _ _ g hg
    obtain ⟨hb, h2⟩ := hlruX g hg1
    exact ⟨hb, h2⟩
  · rw [pin_numPages]
    exact hrep

theorem INV_fetchPg (s : BPM) (pid : Int) (h : INV s) (hal : pid ∈ s.allocated) :
    INV (s.fetchPg pid).2 := by
  cases hl : ptLookup s.pageTable pid with
  | some f =>
    obtain ⟨hfb, hacc, hpid0, hpidn⟩ := h.htab (pid, f) (ptLookup_mem _ _ _ hl)
    have hflen : f < s.pages.length := by rw [h.hlen]; exact hfb
    have heq : (s.fetchPg pid).2 =
      { s with replacer := s.replacer.pin f,
               pages := s.pages.set f { pageAt s f with pinCount := (pageAt s f).pinCount + 1 } } := by
      unfold BPM.fetchPg
      rw [hl]
    rw [heq]
    have hid1 : ∀ i : Nat,
        ((s.pages.set f { pageAt s f with pinCount := (pageAt s f).pinCount + 1 }).getD i emptyPage).pageId
          = (pageAt s i).pageId := by
      intro i
      by_cases hif : i = f
      · subst hif
        rw [getD_set_self _ _ _ _ hflen]
      · rw [getD_set_ne _ _ _ _ _ hif]
        rfl
    refine INV_transfer s _ h rfl rfl rfl (List.length_set _ _ _) hid1 rfl rfl ?_ ?_ ?_ rfl
    · exact fun g hg => mem_pin_subset _ _ g hg
    · exact pin_pinLists_nodup _ _ h.hlruND
    · exact pin_numPages _ _
  | none =>
    obtain ⟨hpid0, hpidn⟩ := h.halloc pid hal
    cases hfl : s.freeList with
    | cons f rest =>
      have heq : (s.fetchPg pid).2 = (fetchFinish { s with freeList := rest } pid f).2 := by
        unfold BPM.fetchPg
        rw [hl, hfl]
      rw [heq]
      have hnodup := h.hfreeND
      rw [hfl, List.nodup_cons] at hnodup
      obtain ⟨hfr, hrnd⟩ := hnodup
      obtain ⟨hfb, hfpg⟩ := h.hfree f (by rw [hfl]; exact List.mem_cons_self f rest)
      have hnone : ptLookup s.pageTable (pageAt s f).pageId = none := by
        rw [hfpg]
        exact ptLookup_neg_none s h _ (by rw [INVALID_PAGE_ID]; omega)
      refine INV_fetchFinish _ pid f h.hlen h.hrep ?_ ?_ hrnd hfr hfb h.htab h.hkeyND
        (Or.inl hnone) ?_ h.hlruND h.halloc h.hnext h.hinst hpid0 hpidn hl
      · show rest.length + (ptErase s.pageTable (pageAt s f).pageId).length + 1 = s.poolSize
        rw [ptErase_eq_of_lookup_none _ _ hnone]
        have hc := h.hcount
        rw [hfl] at hc
        simp only [List.length_cons] at hc
        omega
      · intro g hg
        exact h.hfree g (by rw [hfl]; exact List.mem_cons_of_mem f hg)
      · intro g hg
        obtain ⟨hb, h2⟩ := h.hlru g hg
        refine ⟨hb, ?_⟩
        intro hgr hgf
        apply h2
        rw [hfl]
        intro hc
        rcases List.mem_cons.mp hc with h1 | h1
        · exact hgf h1
        · exact hgr h1
    | nil =>
      cases hv : s.replacer.pinLists with
      | nil =>
        have hvic : s.replacer.victim = (none, s.replacer) := by
          unfold LRUReplacer.victim
          rw [hv]
        have heq : (s.fetchPg pid).2 = s := by
          unfold BPM.fetchPg
          rw [hl, hfl, hvic]
          show ({ s with freeList := [] } : BPM) = s
          rw [← hfl]
        rw [heq]
        exact h
      | cons f rest =>
        have hvic : s.replacer.victim = (some f, { s.replacer with pinLists := rest }) := by
          unfold LRUReplacer.victim
          rw [hv]
        have heq : (s.fetchPg pid).2 =
          (fetchFinish { s with replacer := { s.replacer with pinLists := rest } } pid f).2 := by
          unfold BPM.fetchPg
          rw [hl, hfl, hvic]
        rw [heq]
        have hmemf : f ∈ s.replacer.pinLists := by
          rw [hv]
          exact List.mem_cons_self f rest
        obtain ⟨hfb, h2⟩ := h.hlru f hmemf
        have hnotfree : f ∉ s.freeList := by
          rw [hfl]
          exact List.not_mem_nil f
        have hlookf : ptLookup s.pageTable (pageAt s f).pageId = some f := h2 hnotfree
        have hndv := h.hlruND
        rw [hv, List.nodup_cons] at hndv
        obtain ⟨hfr, hrnd⟩ := hndv
        refine INV_fetchFinish _ pid f h.hlen h.hrep ?_ h.hfree h.hfreeND hnotfree hfb
          h.htab h.hkeyND (Or.inr hlookf) ?_ hrnd h.halloc h.hnext h.hinst hpid0 hpidn hl
        · show s.freeList.length + (ptErase s.pageTable (pageAt s f).pageId).length + 1
            = s.poolSize
          have hc := h.hcount
          have hle := length_ptErase_of_lookup_some _ _ _ h.hkeyND hlookf
          rw [hfl] at hc ⊢
          simp only [List.length_nil] at hc ⊢
          omega
        · intro g hg
          have hgs : g ∈ s.replacer.pinLists := by
            rw [hv]
            exact List.mem_cons_of_mem f hg
          obtain ⟨hb, h3⟩ := h.hlru g hgs
          exact ⟨hb, fun hgnf _ => h3 hgnf⟩

theorem set_getD_self {α : Type} (l : List α) (i : Nat) (d : α) :
    l.set i (l.getD i d) = l := by
  induction l generalizing i with
  | nil => rfl
  | cons x xs ih =>
    cases i with
    | zero => simp
    | succ n =>
      rw [List.set_cons_succ, List.getD_cons_succ, ih n]

theorem finishNew_pageAt_self (u : BPM) (pid : Int) (f : Nat) (h : f < u.pages.length) :
    (pageAt (finishNew u pid f) f).pageId = pid := by
  unfold finishNew
  dsimp only
  show ((u.pages.set f _).getD f emptyPage).pageId = pid
  rw [getD_set_self _ _ _ _ h]

/-- Invariant preservation for the victim branch of NewPgImp, stated over
the fully reduced intermediate state (after allocation, victim removal,
optional write-back with dirty-bit clearing, and page-table erase). -/
theorem INV_newPg_victim (s : BPM) (f : Nat) (rest : List Nat) (W D : List (Int × Int))
    (h : INV s) (hfl : s.freeList = []) (hv : s.replacer.pinLists = f :: rest) :
    INV (finishNew
      { s with nextPageId := s.nextPageId + (s.numInstances : Int),
               allocated := s.nextPageId :: s.allocated,
               replacer := { s.replacer with pinLists := rest },
               writes := W, disk := D,
               pages := s.pages.set f { pageAt s f with isDirty := false },
               pageTable := ptErase s.pageTable (pageAt s f).pageId }
      s.nextPageId f) := by
  have hNpos : (0 : Int) < (s.numInstances : Int) := by exact_mod_cast h.hinst
  have hnn := h.hnext
  have hmemf : f ∈ s.replacer.pinLists := by
    rw [hv]
    exact List.mem_cons_self f rest
  obtain ⟨hfb, h2⟩ := h.hlru f hmemf
  have hflen : f < s.pages.length := by rw [h.hlen]; exact hfb
  have hnotfree : f ∉ s.freeList := by
    rw [hfl]
    exact List.not_mem_nil f
  have hlookf : ptLookup s.pageTable (pageAt s f).pageId = some f := h2 hnotfree
  have hndv := h.hlruND
  rw [hv, List.nodup_cons] at hndv
  obtain ⟨hfr, hrnd⟩ := hndv
  have hqkey : (pageAt s f).pageId < s.nextPageId := by
    have := (h.htab _ (ptLookup_mem _ _ _ hlookf)).2.2.2
    exact this
  have hmiss : ptLookup s.pageTable s.nextPageId = none :=
    ptLookup_none_of_keys_lt s h _ (le_refl _)
  have hgetf : ((s.pages.set f { pageAt s f with isDirty := false }).getD f emptyPage).pageId
      = (pageAt s f).pageId := by
    rw [getD_set_self _ _ _ _ hflen]
  refine INV_finishNew _ s.nextPageId f ?_ h.hrep ?_ ?_ h.hfreeND hnotfree hfb ?_ ?_ ?_
    ?_ hrnd ?_ ?_ h.hinst h.hnext ?_ ?_
  · show (s.pages.set f { pageAt s f with isDirty := false }).length = s.poolSize
    rw [List.length_set]
    exact h.hlen
  · show s.freeList.length + (ptErase s.pageTable (pageAt s f).pageId).length + 1
      = s.poolSize
    have hc := h.hcount
    have hle := length_ptErase_of_lookup_some _ _ _ h.hkeyND hlookf
    rw [hfl] at hc ⊢
    simp only [List.length_nil] at hc ⊢
    omega
  · intro g hgm
    exact absurd (hfl ▸ hgm) (List.not_mem_nil g)
  · intro e he
    obtain ⟨het, hekey⟩ := (mem_ptErase _ _ _).mp he
    obtain ⟨hb, hacc2, hk0, hkn⟩ := h.htab e het
    have hef : e.2 ≠ f := by
      intro hc
      exact hekey (by rw [← hacc2, hc])
    refine ⟨hb, ?_, hk0, by show e.1 < s.nextPageId + (s.numInstances : Int); omega⟩
    show ((s.pages.set f { pageAt s f with isDirty := false }).getD e.2 emptyPage).pageId
      = e.1
    rw [getD_set_ne _ _ _ _ _ hef]
    exact hacc2
  · exact keys_ptErase_nodup _ _ h.hkeyND
  · show ptLookup (ptErase s.pageTable (pageAt s f).pageId)
      (((s.pages.set f { pageAt s f with isDirty := false }).getD f emptyPage).pageId) = none
    rw [hgetf]
    exact ptLookup_erase_self _ _
  · intro g hg
    have hgs : g ∈ s.replacer.pinLists := by
      rw [hv]
      exact List.mem_cons_of_mem f hg
    obtain ⟨hb, h3⟩ := h.hlru g hgs
    refine ⟨hb, ?_⟩
    intro _ hgf
    have hlookg : ptLookup s.pageTable (pageAt s g).pageId = some g := by
      apply h3
      rw [hfl]
      exact List.not_mem_nil g
    have hkgq : (pageAt s g).pageId ≠ (pageAt s f).pageId := by
      intro hc
      rw [hc, hlookf] at hlookg
      exact hgf (by injection hlookg with hinj; exact hinj.symm)
    show ptLookup (ptErase s.pageTable (pageAt s f).pageId)
      (((s.pages.set f { pageAt s f with isDirty := false }).getD g emptyPage).pageId)
      = some g
    rw [getD_set_ne _ _ _ _ _ hgf,
        ptLookup_erase_ne _ _ _
          (show (s.pages.getD g emptyPage).pageId ≠ (pageAt s f).pageId from hkgq)]
    exact hlookg
  · intro p hp
    show 0 ≤ p ∧ p < s.nextPageId + (s.numInstances : Int)
    rcases List.mem_cons.mp hp with rfl | hp1
    · exact ⟨h.hnext, by omega⟩
    · obtain ⟨h1, h3⟩ := h.halloc p hp1
      exact ⟨h1, by omega⟩
  · show 0 ≤ s.nextPageId + (s.numInstances : Int)
    omega
  · show s.nextPageId < s.nextPageId + (s.numInstances : Int)
    omega
  · show ptLookup (ptErase s.pageTable (pageAt s f).pageId) s.nextPageId = none
    rw [ptLookup_erase_ne _ _ _ (by omega)]
    exact hmiss

theorem INV_newPg (s : BPM) (h : INV s) : INV (s.newPg).2 := by
  by_cases hg : s.freeList = [] ∧ s.replacer.size = 0
  · have heq : (s.newPg).2 = s := by
      unfold BPM.newPg
      rw [if_pos hg]
    rw [heq]
    exact h
  · have hNpos : (0 : Int) < (s.numInstances : Int) := by exact_mod_cast h.hinst
    have hnn := h.hnext
    have hmiss : ptLookup s.pageTable s.nextPageId = none :=
      ptLookup_none_of_keys_lt s h _ (le_refl _)
    cases hfl : s.freeList with
    | cons f rest =>
      have heq : (s.newPg).2 = finishNew
          { s with nextPageId := s.nextPageId + (s.numInstances : Int),
                   allocated := s.nextPageId :: s.allocated,
                   freeList := rest } s.nextPageId f := by
        unfold BPM.newPg
        rw [if_neg hg]
        dsimp only
        rw [hfl]
      rw [heq]
      obtain ⟨hfb, hfpg⟩ := h.hfree f (by rw [hfl]; exact List.mem_cons_self f rest)
      have hnodup := h.hfreeND
      rw [hfl, List.nodup_cons] at hnodup
      obtain ⟨hfr, hrnd⟩ := hnodup
      have hmissq : ptLookup s.pageTable (pageAt s f).pageId = none := by
        rw [hfpg]
        exact ptLookup_neg_none s h _ (by rw [INVALID_PAGE_ID]; omega)
      refine INV_finishNew _ s.nextPageId f h.hlen h.hrep ?_ ?_ hrnd hfr hfb ?_ h.hkeyND
        hmissq ?_ h.hlruND ?_ ?_ h.hinst h.hnext ?_ hmiss
      · show rest.length + s.pageTable.length + 1 = s.poolSize
        have hc := h.hcount
        rw [hfl] at hc
        simp only [List.length_cons] at hc
        omega
      · intro g hgm
        exact h.hfree g (by rw [hfl]; exact List.mem_cons_of_mem f hgm)
      · intro e he
        obtain ⟨hb, hacc2, hk0, hkn⟩ := h.htab e he
        exact ⟨hb, hacc2, hk0, by show e.1 < s.nextPageId + (s.numInstances : Int); omega⟩
      · intro g hgm
        obtain ⟨hb, h2⟩ := h.hlru g hgm
        refine ⟨hb, ?_⟩
        intro hgr hgf
        apply h2
        rw [hfl]
        intro hc
        rcases List.mem_cons.mp hc with h1 | h1
        · exact hgf h1
        · exact hgr h1
      · intro p hp
        show 0 ≤ p ∧ p < s.nextPageId + (s.numInstances : Int)
        rcases List.mem_cons.mp hp with rfl | hp1
        · exact ⟨h.hnext, by omega⟩
        · obtain ⟨h1, h3⟩ := h.halloc p hp1
          exact ⟨h1, by omega⟩
      · show 0 ≤ s.nextPageId + (s.numInstances : Int)
        omega
      · show s.nextPageId < s.nextPageId + (s.numInstances : Int)
        omega
    | nil =>
      cases hv : s.replacer.pinLists with
      | nil =>
        exact absurd ⟨hfl, by rw [LRUReplacer.size, hv]; rfl⟩ hg
      | cons f rest =>
        have hvic : s.replacer.victim = (some f, { s.replacer with pinLists := rest }) := by
          unfold LRUReplacer.victim
          rw [hv]
        have hmemf : f ∈ s.replacer.pinLists := by
          rw [hv]
          exact List.mem_cons_self f rest
        have hfb := (h.hlru f hmemf).1
        have hflen : f < s.pages.length := by rw [h.hlen]; exact hfb
        by_cases hd : (s.pages.getD f emptyPage).isDirty = true
        · have heq : (s.newPg).2 = finishNew
              { s with nextPageId := s.nextPageId + (s.numInstances : Int),
                       allocated := s.nextPageId :: s.allocated,
                       replacer := { s.replacer with pinLists := rest },
                       writes := s.writes ++ [((pageAt s f).pageId, (pageAt s f).data)],
                       disk := diskWrite s.disk (pageAt s f).pageId (pageAt s f).data,
                       pages := s.pages.set f { pageAt s f with isDirty := false },
                       pageTable := ptErase s.pageTable (pageAt s f).pageId }
              s.nextPageId f := by
            unfold BPM.newPg
            rw [if_neg hg]
            dsimp only
            rw [hfl]
            dsimp only
            rw [hvic]
            dsimp only
            simp only [pageAt]
            rw [if_pos hd]
          rw [heq]
          exact INV_newPg_victim s f rest _ _ h hfl hv
        · have hclean : (pageAt s f).isDirty = false := by
            revert hd
            unfold pageAt
            cases (s.pages.getD f emptyPage).isDirty <;> simp
          have hpgeq : s.pages.set f { pageAt s f with isDirty := false } = s.pages := by
            rw [clearDirty_eq_self _ hclean]
            exact set_getD_self s.pages f emptyPage
          have heq : (s.newPg).2 = finishNew
              { s with nextPageId := s.nextPageId + (s.numInstances : Int),
                       allocated := s.nextPageId :: s.allocated,
                       replacer := { s.replacer with pinLists := rest },
                       pages := s.pages.set f { pageAt s f with isDirty := false },
                       pageTable := ptErase s.pageTable (pageAt s f).pageId }
              s.nextPageId f := by
            rw [hpgeq]
            unfold BPM.newPg
            rw [if_neg hg]
            dsimp only
            rw [hfl]
            dsimp only
            rw [hvic]
            dsimp only
            simp only [pageAt]
            rw [if_neg hd]
          rw [heq]
          exact INV_newPg_victim s f rest s.writes s.disk h hfl hv

theorem INV_step (s : BPM) (op : Op) (h : INV s) (hok : okOpB s op = true) :
    INV (s.step op) := by
  cases op with
  | newPage => exact INV_newPg s h
  | fetchPage p =>
    have hal : p ∈ s.allocated := by
      rw [okOpB, decide_eq_true_eq] at hok
      exact hok
    exact INV_fetchPg s p h hal
  | unpinPage p d => exact INV_unpinPg s p d h
  | flushPage p => exact INV_flushPg s p h
  | flushAllPages => exact INV_flushAll s h
  | deletePage p => exact INV_deletePg s p h

theorem INV_mkBPM (P N i : Nat) (d : List (Int × Int)) (hN : 0 < N) :
    INV (mkBPM P N i d) := by
  have hget : ∀ f : Nat, (List.replicate P emptyPage).getD f emptyPage = emptyPage := by
    intro f
    by_cases hf : f < P
    · exact getD_replicate P f emptyPage emptyPage hf
    · exact List.getD_eq_default _ _ (by simpa [List.length_replicate] using hf)
  refine ⟨?_, rfl, ?_, ?_, ?_, ?_, ?_, ?_, ?_, ?_, ?_, hN⟩
  · simp [mkBPM]
  · simp [mkBPM]
  · intro f hf
    have hf2 : f < P := by
      rw [mkBPM] at hf
      simp only [List.mem_reverse, List.mem_range] at hf
      exact hf
    refine ⟨hf2, ?_⟩
    show ((List.replicate P emptyPage).getD f emptyPage).pageId = INVALID_PAGE_ID
    rw [hget f]
    rfl
  · show ((List.range P).reverse).Nodup
    rw [List.nodup_reverse]
    exact List.nodup_range P
  · intro e he
    simp [mkBPM] at he
  · simp [mkBPM]
  · intro g hg
    simp [mkBPM] at hg
  · simp [mkBPM]
  · intro p hp
    simp [mkBPM] at hp
  · simp [mkBPM]

theorem INV_run (s : BPM) (ops : List Op) (h : INV s) (hwf : WFB s ops = true) :
    INV (s.run ops) := by
  induction ops generalizing s with
  | nil => exact h
  | cons op rest ih =>
    rw [WFB, Bool.and_eq_true] at hwf
    exact ih (s.step op) (INV_step s op h hwf.1) hwf.2

theorem finishNew_poolSize (u : BPM) (pid : Int) (f : Nat) :
    (finishNew u pid f).poolSize = u.poolSize := by
  unfold finishNew
  rfl

theorem fetchFinish_poolSize (u : BPM) (pid : Int) (f : Nat) :
    ((fetchFinish u pid f).2).poolSize = u.poolSize := by
  unfold fetchFinish
  dsimp only
  split <;> rfl

theorem poolSize_newPg (s : BPM) : ((s.newPg).2).poolSize = s.poolSize := by
  unfold BPM.newPg
  dsimp only
  split
  · rfl
  · split
    · rw [finishNew_poolSize]
    · split
      · rfl
      · rw [finishNew_poolSize]
        dsimp only
        split <;> rfl

theorem poolSize_fetchPg (s : BPM) (pid : Int) : ((s.fetchPg pid).2).poolSize = s.poolSize := by
  unfold BPM.fetchPg
  dsimp only
  split
  · rfl
  · split
    · rw [fetchFinish_poolSize]
    · split
      · rfl
      · rw [fetchFinish_poolSize]

theorem poolSize_unpinPg (s : BPM) (pid : Int) (d : Bool) :
    ((s.unpinPg pid d).2).poolSize = s.poolSize := by
  unfold BPM.unpinPg
  dsimp only
  split
  · rfl
  · split
    · rfl
    · split <;> rfl

theorem poolSize_flushPg (s : BPM) (pid : Int) :
    ((s.flushPg pid).2).poolSize = s.poolSize := by
  unfold BPM.flushPg
  dsimp only
  split
  · rfl
  · split
    · rfl
    · split <;> rfl

theorem poolSize_deletePg (s : BPM) (pid : Int) :
    ((s.deletePg pid).2).poolSize = s.poolSize := by
  unfold BPM.deletePg
  dsimp only
  split
  · rfl
  · split <;> rfl

theorem poolSize_step (s : BPM) (op : Op) : (s.step op).poolSize = s.poolSize := by
  cases op with
  | newPage => exact poolSize_newPg s
  | fetchPage p => exact poolSize_fetchPg s p
  | unpinPage p d => exact poolSize_unpinPg s p d
  | flushPage p => exact poolSize_flushPg s p
  | flushAllPages => exact flushFrames_poolSize _ s
  | deletePage p => exact poolSize_deletePg s p

theorem poolSize_run (ops : List Op) : ∀ s : BPM, (s.run ops).poolSize = s.poolSize := by
  induction ops with
  | nil => intro s; rfl
  | cons op rest ih =>
    intro s
    show ((s.step op).run rest).poolSize = s.poolSize
    rw [ih (s.step op), poolSize_step]

theorem allocState_numInstances (s : BPM) : ∀ k : Nat,
    (allocState s k).numInstances = s.numInstances := by
  intro k
  induction k with
  | zero => rfl
  | succ n ih =>
    show ((allocState s n).allocatePage).2.numInstances = s.numInstances
    rw [BPM.allocatePage]
    exact ih

theorem allocState_nextPageId (s : BPM) : ∀ k : Nat,
    (allocState s k).nextPageId = s.nextPageId + (k : Int) * (s.numInstances : Int) := by
  intro k
  induction k with
  | zero => simp [allocState]
  | succ n ih =>
    show ((allocState s n).allocatePage).2.nextPageId = _
    rw [BPM.allocatePage]
    dsimp only
    rw [ih, allocState_numInstances]
    push_cast
    ring

theorem allocNth_eq (s : BPM) (k : Nat) :
    allocNth s k = s.nextPageId + (k : Int) * (s.numInstances : Int) := by
  rw [allocNth, BPM.allocatePage]
  exact allocState_nextPageId s k

/-- C8: from a manager constructed with numInstances N and instanceIndex
i < N, the page ids produced by successive AllocatePage calls are strictly
increasing and congruent to i modulo N, and two instances with distinct
indices below N never produce the same id. -/
theorem C8_alloc_partition (P N : Nat) (d : List (Int × Int)) (i : Nat)
    (hN : 0 < N) (hi : i < N) :
    (∀ k l : Nat, k < l → allocNth (mkBPM P N i d) k < allocNth (mkBPM P N i d) l) ∧
    (∀ k : Nat, allocNth (mkBPM P N i d) k % (N : Int) = (i : Int)) ∧
    (∀ j : Nat, j < N → j ≠ i → ∀ a b : Nat,
      allocNth (mkBPM P N i d) a ≠ allocNth (mkBPM P N j d) b) := by
  have hmk : ∀ x : Nat, (mkBPM P N x d).nextPageId = (x : Int) := fun x => rfl
  have hnth : ∀ (x k : Nat), allocNth (mkBPM P N x d) k
      = (x : Int) + (k : Int) * (N : Int) := by
    intro x k
    rw [allocNth_eq, hmk]
    rfl
  have hNZ : (0 : Int) < (N : Int) := by exact_mod_cast hN
  have hmod : ∀ (x : Nat), x < N → ∀ k : Nat,
      ((x : Int) + (k : Int) * (N : Int)) % (N : Int) = (x : Int) := by
    intro x hx k
    rw [mul_comm, Int.add_mul_emod_self_left]
    exact Int.emod_eq_of_lt (by exact_mod_cast Nat.zero_le x) (by exact_mod_cast hx)
  refine ⟨?_, ?_, ?_⟩
  · intro k l hkl
    rw [hnth, hnth]
    have hkl2 : (k : Int) < (l : Int) := by exact_mod_cast hkl
    have := mul_lt_mul_of_pos_right hkl2 hNZ
    omega
  · intro k
    rw [hnth]
    exact hmod i hi k
  · intro j hj hji a b hceq
    rw [hnth, hnth] at hceq
    have h1 := hmod i hi a
    have h2 := hmod j hj b
    rw [hceq, h2] at h1
    exact hji (by exact_mod_cast h1)

/-- C8 witness: instantiation at N = 3, instances 0 and 1. -/
theorem C8_alloc_partition_witness :
    (0 < 3 ∧ 0 < 3 ∧ (1 : Nat) < 3 ∧ (1 : Nat) ≠ 0 ∧ (2 : Nat) < 5) ∧
    allocNth (mkBPM 1 3 0 []) 2 < allocNth (mkBPM 1 3 0 []) 5 ∧
    allocNth (mkBPM 1 3 0 []) 2 % (3 : Int) = (0 : Int) ∧
    allocNth (mkBPM 1 3 0 []) 4 ≠ allocNth (mkBPM 1 3 1 []) 7 :=
  ⟨⟨by decide, by decide, by decide, by decide, by decide⟩,
   (C8_alloc_partition 1 3 [] 0 (by decide) (by decide)).1 2 5 (by decide),
   (C8_alloc_partition 1 3 [] 0 (by decide) (by decide)).2.1 2,
   (C8_alloc_partition 1 3 [] 0 (by decide) (by decide)).2.2 1 (by decide) (by decide) 4 7⟩

/-- C6: strict LRU order of the first replacer implementation.  If frames
a, b, c are unpinned in that order into an empty eligibility ordering with
no intervening pin (capacity at least 3), the next three victims are a,
then b, then c.  In general selectVictim on a nonempty ordering removes
and returns the least-recently-unpinned entry (the head of our reversed
list, i.e. the C++ list back), and reports none on an empty ordering. -/
theorem C6_lru_order (r : LRUReplacer) (a b c : Nat)
    (hab : a ≠ b) (hac : a ≠ c) (hbc : b ≠ c)
    (h0 : r.pinLists = []) (hn : 3 ≤ r.numPages) :
    (((((r.unpin a).unpin b).unpin c).victim).1 = some a ∧
     ((((((r.unpin a).unpin b).unpin c).victim).2).victim).1 = some b ∧
     ((((((((r.unpin a).unpin b).unpin c).victim).2).victim).2).victim).1 = some c) ∧
    (∀ q : LRUReplacer, ∀ g : Nat, ∀ gs : List Nat, q.pinLists = g :: gs →
      q.victim = (some g, { q with pinLists := gs })) ∧
    (∀ q : LRUReplacer, q.pinLists = [] → q.victim = (none, q)) := by
  have hgen : ∀ q : LRUReplacer, ∀ g : Nat, ∀ gs : List Nat, q.pinLists = g :: gs →
      q.victim = (some g, { q with pinLists := gs }) := by
    intro q g gs hq
    unfold LRUReplacer.victim
    rw [hq]
  have hnil : ∀ q : LRUReplacer, q.pinLists = [] → q.victim = (none, q) := by
    intro q hq
    unfold LRUReplacer.victim
    rw [hq]
  have hnum1 : (r.unpin a).numPages = r.numPages := unpin_numPages r a
  have hnum2 : ((r.unpin a).unpin b).numPages = r.numPages := by
    rw [unpin_numPages, unpin_numPages]
  have hstep : ∀ (q : LRUReplacer) (x : Nat) (xs : List Nat), q.pinLists = xs →
      x ∉ xs → xs.length < q.numPages → (q.unpin x).pinLists = xs ++ [x] := by
    intro q x xs hq hx hxlen
    unfold LRUReplacer.unpin
    rw [hq, if_neg hx, if_pos hxlen]
  have h1 : (r.unpin a).pinLists = [] ++ [a] :=
    hstep r a [] h0 (List.not_mem_nil a) (by simp only [List.length_nil]; omega)
  rw [List.nil_append] at h1
  have h2 : ((r.unpin a).unpin b).pinLists = [a] ++ [b] :=
    hstep (r.unpin a) b [a] h1
      (by intro hc; rw [List.mem_singleton] at hc; exact hab hc.symm)
      (by rw [hnum1]; simp only [List.length_singleton]; omega)
  have h3 : (((r.unpin a).unpin b).unpin c).pinLists = ([a] ++ [b]) ++ [c] :=
    hstep ((r.unpin a).unpin b) c ([a] ++ [b]) h2
      (by
        intro hc
        rcases List.mem_append.mp hc with hx | hx
        · rw [List.mem_singleton] at hx
          exact hac hx.symm
        · rw [List.mem_singleton] at hx
          exact hbc hx.symm)
      (by rw [hnum2]; simp only [List.length_append, List.length_singleton]; omega)
  rw [show ([a] ++ [b]) ++ [c] = [a, b, c] from rfl] at h3
  have hv1 := hgen _ a [b, c] h3
  have hv2 := hgen { ((r.unpin a).unpin b).unpin c with pinLists := [b, c] } b [c] rfl
  have hv3 := hgen { { ((r.unpin a).unpin b).unpin c with pinLists := [b, c] }
    with pinLists := [c] } c [] rfl
  refine ⟨⟨?_, ?_, ?_⟩, hgen, hnil⟩
  · rw [hv1]
  · rw [hv1]
    dsimp only
    rw [hv2]
  · rw [hv1]
    dsimp only
    rw [hv2]
    dsimp only
    rw [hv3]

/-- C6 witness: three frames 0, 1, 2 in an empty replacer of capacity 3. -/
theorem C6_lru_order_witness :
    ((0 : Nat) ≠ 1 ∧ (0 : Nat) ≠ 2 ∧ (1 : Nat) ≠ 2 ∧
     (⟨3, [], []⟩ : LRUReplacer).pinLists = [] ∧ 3 ≤ (⟨3, [], []⟩ : LRUReplacer).numPages) ∧
    (((((⟨3, [], []⟩ : LRUReplacer).unpin 0).unpin 1).unpin 2).victim).1 = some 0 :=
  ⟨⟨by decide, by decide, by decide, by decide, by decide⟩,
   ((C6_lru_order ⟨3, [], []⟩ 0 1 2 (by decide) (by decide) (by decide) rfl
     (by decide)).1).1⟩

/-- C9: when the free list and the eligible set are both empty, NewPage
returns the failure indicator with the whole state unchanged: in
particular no page id is allocated (next_page_id_ is untouched) and the
out parameter of the caller is never written (no id is returned). -/
theorem C9_exhausted_newpage (s : BPM) (hfl : s.freeList = [])
    (hrl : s.replacer.pinLists = []) :
    s.newPg = (none, s) ∧ ((s.newPg).2).nextPageId = s.nextPageId := by
  have hmain : s.newPg = (none, s) := by
    unfold BPM.newPg
    rw [if_pos ⟨hfl, show s.replacer.size = 0 by rw [LRUReplacer.size, hrl]; rfl⟩]
  exact ⟨hmain, by rw [hmain]⟩

/-- C9 witness: a pool of size 1 whose only frame is pinned by NewPage. -/
theorem C9_exhausted_newpage_witness :
    (((mkBPM 1 1 0 []).run [Op.newPage]).freeList = [] ∧
     ((mkBPM 1 1 0 []).run [Op.newPage]).replacer.pinLists = []) ∧
    ((mkBPM 1 1 0 []).run [Op.newPage]).newPg = (none, (mkBPM 1 1 0 []).run [Op.newPage]) :=
  ⟨⟨by decide, by decide⟩,
   (C9_exhausted_newpage ((mkBPM 1 1 0 []).run [Op.newPage]) (by decide) (by decide)).1⟩

/-- C10: after FlushAllPages no frame is dirty; the write trace grows by
exactly one WritePage per previously-dirty frame, keyed by the resident page id
of that frame with its buffer contents, in frame order; clean frames
and all structural state are untouched. -/
theorem C10_flush_all (s : BPM) (hlen : s.pages.length = s.poolSize) :
    (∀ pg ∈ (s.flushAll).pages, pg.isDirty = false) ∧
    (s.flushAll).writes = s.writes ++
      ((List.range s.poolSize).filter (fun i => (pageAt s i).isDirty)).map
        (fun i => ((pageAt s i).pageId, (pageAt s i).data)) ∧
    (∀ i : Nat, pageAt (s.flushAll) i = { pageAt s i with isDirty := false }) ∧
    (∀ i : Nat, (pageAt s i).isDirty = false → pageAt (s.flushAll) i = pageAt s i) ∧
    (s.flushAll).pageTable = s.pageTable ∧
    (s.flushAll).freeList = s.freeList ∧
    (s.flushAll).replacer = s.replacer ∧
    (s.flushAll).nextPageId = s.nextPageId := by
  have hAll : ∀ i : Nat, pageAt (s.flushAll) i = { pageAt s i with isDirty := false } := by
    intro i
    by_cases hm : i ∈ List.range s.poolSize
    · exact flushFrames_pageAt_mem _ _ _ (List.nodup_range _) hm
    · rw [BPM.flushAll, flushFrames_pageAt_not_mem _ _ _ hm]
      have hout : s.pages.length ≤ i := by
        rw [hlen]
        rw [List.mem_range] at hm
        omega
      have hpe : pageAt s i = emptyPage := List.getD_eq_default _ _ hout
      rw [hpe]
      rfl
  refine ⟨?_, ?_, hAll, ?_, flushFrames_pageTable _ _, flushFrames_freeList _ _,
    flushFrames_replacer _ _, flushFrames_nextPageId _ _⟩
  · intro pg hpg
    rw [List.mem_iff_getElem] at hpg
    obtain ⟨n, hn, hpgn⟩ := hpg
    have hget : pageAt (s.flushAll) n = pg := by
      rw [pageAt, List.getD_eq_getElem?_getD, List.getElem?_eq_getElem hn]
      exact hpgn
    rw [hAll n] at hget
    rw [← hget]
  · exact flushFrames_writes _ s (List.nodup_range _)
  · intro i hclean
    rw [hAll i]
    exact clearDirty_eq_self _ hclean

/-- C10 witness: a pool of size 2 with one dirty resident page. -/
theorem C10_flush_all_witness :
    ((mkBPM 2 1 0 []).run [Op.newPage, Op.unpinPage 0 true]).pages.length
      = ((mkBPM 2 1 0 []).run [Op.newPage, Op.unpinPage 0 true]).poolSize ∧
    (∀ pg ∈ (((mkBPM 2 1 0 []).run [Op.newPage, Op.unpinPage 0 true]).flushAll).pages,
      pg.isDirty = false) :=
  ⟨by decide,
   (C10_flush_all ((mkBPM 2 1 0 []).run [Op.newPage, Op.unpinPage 0 true]) (by decide)).1⟩

/-- C1 fails on the code: on a pool of size 2, after NewPage (page 0 in
frame 1), NewPage (page 1 in frame 0), UnpinPage 0, DeletePage 0 and
FetchPage 0, frame 1 holds page 0 with pinCount 1 yet is still in the
eviction-eligible list (DeletePgImp never removes the frame from the
replacer and the FetchPgImp miss path never pins it there), so the next
NewPage selects frame 1 as victim and evicts the pinned page 0 instead of
failing with the pool-exhausted indicator. -/
theorem C1_pinned_eviction :
    (let s := (mkBPM 2 1 0 []).run
      [Op.newPage, Op.newPage, Op.unpinPage 0 false, Op.deletePage 0, Op.fetchPage 0]
     s.freeList = [] ∧
     ptLookup s.pageTable 0 = some 1 ∧
     (pageAt s 1).pinCount = 1 ∧
     (s.replacer.victim).1 = some 1 ∧
     (s.newPg).1 = some (2, 1) ∧
     ptLookup ((s.newPg).2).pageTable 0 = none ∧
     (pageAt ((s.newPg).2) 1).pageId = 2) := by
  decide

/-- C2 as stated is false: FetchPage with a page id this instance never
allocated (here page 0 on a fresh pool, before any NewPage) loads it into
a frame, and the following NewPage allocates the same id 0 and overwrites
the page-table entry, after which the free list and page directory
together account for only 1 of the 2 frames. -/
theorem C2_capacity_cex :
    ¬ (((mkBPM 2 1 0 []).run [Op.fetchPage 0, Op.newPage]).freeList.length
        + ((mkBPM 2 1 0 []).run [Op.fetchPage 0, Op.newPage]).pageTable.length = 2) := by
  decide

/-- C2 (amended): in every state reachable from a freshly constructed pool
by operations in which every FetchPage argument is a page id previously
returned by the allocator of this instance, the number of free-list entries
plus the number of page-table entries equals poolSize. -/
theorem C2_capacity_invariant (P N i : Nat) (d : List (Int × Int)) (ops : List Op)
    (hN : 0 < N) (hwf : WFB (mkBPM P N i d) ops = true) :
    ((mkBPM P N i d).run ops).freeList.length
      + ((mkBPM P N i d).run ops).pageTable.length = P := by
  have h := (INV_run _ ops (INV_mkBPM P N i d hN) hwf).hcount
  rw [poolSize_run ops (mkBPM P N i d)] at h
  exact h

/-- C2 witness: a six-operation run (including the delete / re-fetch
pattern) on a pool of size 2 keeps the account at 2. -/
theorem C2_capacity_invariant_witness :
    (0 < 1 ∧ WFB (mkBPM 2 1 0 [])
      [Op.newPage, Op.newPage, Op.unpinPage 0 false, Op.deletePage 0,
       Op.fetchPage 0, Op.newPage] = true) ∧
    ((mkBPM 2 1 0 []).run
      [Op.newPage, Op.newPage, Op.unpinPage 0 false, Op.deletePage 0,
       Op.fetchPage 0, Op.newPage]).freeList.length
      + ((mkBPM 2 1 0 []).run
      [Op.newPage, Op.newPage, Op.unpinPage 0 false, Op.deletePage 0,
       Op.fetchPage 0, Op.newPage]).pageTable.length = 2 :=
  ⟨⟨by decide, by decide⟩,
   C2_capacity_invariant 2 1 0 []
     [Op.newPage, Op.newPage, Op.unpinPage 0 false, Op.deletePage 0,
      Op.fetchPage 0, Op.newPage] (by decide) (by decide)⟩

/-- C3 as stated is false on two points: after NewPage (page 0 in frame 1),
UnpinPage 0 and DeletePage 0, the deleted frame 1 is still in the
eviction-eligible list (no EvictionPolicy removal happens), and although
the frame was pushed onto the std::list front (the tail of our reversed
freeList [0, 1]), the next acquisition pops from the back and returns
frame 0, the naturally-freed slot, not frame 1. -/
theorem C3_delete_cex :
    (let s := (mkBPM 2 1 0 []).run [Op.newPage, Op.unpinPage 0 false, Op.deletePage 0]
     s.replacer.pinLists = [1] ∧
     s.freeList = [0, 1] ∧
     (s.newPg).1 = some (1, 0)) := by
  decide

/-- C3 (amended): DeletePage on a resident page with pinCount 0 returns
true, resets the pageId of the frame to the sentinel, clears isDirty, removes
the PageDirectory entry, and pushes the frame onto the front of the C++
free list (the tail of our reversed freeList); since acquisition pops
from the back, the frame is reused only after the previously-free slots,
and the EvictionPolicy state is left entirely unchanged. -/
theorem C3_delete_spec (s : BPM) (pid : Int) (f : Nat)
    (hres : ptLookup s.pageTable pid = some f)
    (hpin : (pageAt s f).pinCount = 0)
    (hf : f < s.pages.length) :
    (s.deletePg pid).1 = true ∧
    (pageAt ((s.deletePg pid).2) f).pageId = INVALID_PAGE_ID ∧
    (pageAt ((s.deletePg pid).2) f).isDirty = false ∧
    ptLookup ((s.deletePg pid).2).pageTable pid = none ∧
    ((s.deletePg pid).2).freeList = s.freeList ++ [f] ∧
    ((s.deletePg pid).2).replacer = s.replacer := by
  have hnp : ¬ (pageAt s f).pinCount ≠ 0 := by simp [hpin]
  have heq : s.deletePg pid = (true,
    { s with pages := s.pages.set f { pageAt s f with pageId := INVALID_PAGE_ID, isDirty := false },
             freeList := s.freeList ++ [f],
             pageTable := ptErase s.pageTable pid }) := by
    unfold BPM.deletePg
    rw [hres]
    dsimp only
    rw [if_neg hnp]
  rw [heq]
  refine ⟨rfl, ?_, ?_, ?_, rfl, rfl⟩
  · show ((s.pages.set f _).getD f emptyPage).pageId = INVALID_PAGE_ID
    rw [getD_set_self _ _ _ _ hf]
  · show ((s.pages.set f _).getD f emptyPage).isDirty = false
    rw [getD_set_self _ _ _ _ hf]
  · exact ptLookup_erase_self _ _

/-- C3 witness: deleting page 0 (resident in frame 1, unpinned) on a pool
of size 2. -/
theorem C3_delete_spec_witness :
    (let s0 := (mkBPM 2 1 0 []).run [Op.newPage, Op.unpinPage 0 false]
     (ptLookup s0.pageTable 0 = some 1 ∧ (pageAt s0 1).pinCount = 0 ∧
      1 < s0.pages.length) ∧
     ((s0.deletePg 0).1 = true ∧
      (pageAt ((s0.deletePg 0).2) 1).pageId = INVALID_PAGE_ID ∧
      (pageAt ((s0.deletePg 0).2) 1).isDirty = false ∧
      ptLookup ((s0.deletePg 0).2).pageTable 0 = none ∧
      ((s0.deletePg 0).2).freeList = s0.freeList ++ [1] ∧
      ((s0.deletePg 0).2).replacer = s0.replacer)) :=
  ⟨⟨by decide, by decide, by decide⟩,
   C3_delete_spec ((mkBPM 2 1 0 []).run [Op.newPage, Op.unpinPage 0 false]) 0 1
     (by decide) (by decide) (by decide)⟩

/-- C4 fails on the code in its last conjunct: at the failing input (same
preparatory operations as the C1 scenario) the miss-path FetchPage of page 0 does read the
page from disk, set pageId, pinCount 1, isDirty false and record the
page-table entry, but it never touches the eviction policy, so the frame
it acquired from the free list (frame 1, stale from the earlier delete)
remains in the eligible list while pinned, rather than being marked
ineligible. -/
theorem C4_fetch_miss_eval :
    (let s := (mkBPM 2 1 0 []).run
      [Op.newPage, Op.newPage, Op.unpinPage 0 false, Op.deletePage 0]
     (s.fetchPg 0).1 = some 1 ∧
     (pageAt ((s.fetchPg 0).2) 1).pageId = 0 ∧
     (pageAt ((s.fetchPg 0).2) 1).pinCount = 1 ∧
     (pageAt ((s.fetchPg 0).2) 1).isDirty = false ∧
     (pageAt ((s.fetchPg 0).2) 1).data = diskRead s.disk 0 ∧
     ptLookup ((s.fetchPg 0).2).pageTable 0 = some 1 ∧
     1 ∈ ((s.fetchPg 0).2).replacer.pinLists) := by
  decide

/-- C5: when page q is resident in frame f with its dirty bit set (the
state left by a fetch followed by an unpin with setDirty true), the free
list is empty and f is the next victim, then evicting f via NewPage, or
via a miss FetchPage of a page p, emits exactly one WritePage call keyed
by q with the buffer contents of the frame before the frame is reused, and the
page table afterwards maps the new id to f and no longer maps q. -/
theorem C5_dirty_writeback (s : BPM) (q p : Int) (f : Nat) (rest : List Nat)
    (hres : ptLookup s.pageTable q = some f)
    (hq : (pageAt s f).pageId = q)
    (hdirty : (pageAt s f).isDirty = true)
    (hfree : s.freeList = [])
    (hv : s.replacer.pinLists = f :: rest)
    (hmiss : ptLookup s.pageTable p = none)
    (hqn : q ≠ s.nextPageId)
    (hflen : f < s.pages.length) :
    (((s.newPg).2).writes = s.writes ++ [(q, (pageAt s f).data)] ∧
     ptLookup ((s.newPg).2).pageTable q = none ∧
     ptLookup ((s.newPg).2).pageTable s.nextPageId = some f ∧
     (pageAt ((s.newPg).2) f).pageId = s.nextPageId) ∧
    (((s.fetchPg p).2).writes = s.writes ++ [(q, (pageAt s f).data)] ∧
     ptLookup ((s.fetchPg p).2).pageTable q = none ∧
     ptLookup ((s.fetchPg p).2).pageTable p = some f ∧
     (pageAt ((s.fetchPg p).2) f).pageId = p) := by
  have hqp : q ≠ p := by
    intro hc
    rw [hc, hmiss] at hres
    exact Option.noConfusion hres
  have hvic : s.replacer.victim = (some f, { s.replacer with pinLists := rest }) := by
    unfold LRUReplacer.victim
    rw [hv]
  have hg : ¬ (s.freeList = [] ∧ s.replacer.size = 0) := by
    intro hc
    have := hc.2
    rw [LRUReplacer.size, hv] at this
    simp at this
  have hd2 : (s.pages.getD f emptyPage).isDirty = true := hdirty
  constructor
  · have heq : (s.newPg).2 = finishNew
        { s with nextPageId := s.nextPageId + (s.numInstances : Int),
                 allocated := s.nextPageId :: s.allocated,
                 replacer := { s.replacer with pinLists := rest },
                 writes := s.writes ++ [((pageAt s f).pageId, (pageAt s f).data)],
                 disk := diskWrite s.disk (pageAt s f).pageId (pageAt s f).data,
                 pages := s.pages.set f { pageAt s f with isDirty := false },
                 pageTable := ptErase s.pageTable (pageAt s f).pageId }
        s.nextPageId f := by
      unfold BPM.newPg
      rw [if_neg hg]
      dsimp only
      rw [hfree]
      dsimp only
      rw [hvic]
      dsimp only
      simp only [pageAt]
      rw [if_pos hd2]
    rw [heq]
    refine ⟨?_, ?_, ?_, ?_⟩
    · show s.writes ++ [((pageAt s f).pageId, (pageAt s f).data)]
        = s.writes ++ [(q, (pageAt s f).data)]
      rw [hq]
    · show ptLookup
        (ptInsert (ptErase s.pageTable (pageAt s f).pageId) s.nextPageId f) q = none
      rw [hq, ptLookup_insert_ne _ _ _ _ hqn]
      exact ptLookup_erase_self _ _
    · show ptLookup
        (ptInsert (ptErase s.pageTable (pageAt s f).pageId) s.nextPageId f) s.nextPageId
        = some f
      exact ptLookup_insert_self _ _ _
    · exact finishNew_pageAt_self _ _ _ (by rw [List.length_set]; exact hflen)
  · have heq2 : (s.fetchPg p).2 =
        (fetchFinish { s with replacer := { s.replacer with pinLists := rest } } p f).2 := by
      unfold BPM.fetchPg
      rw [hmiss, hfree, hvic]
    rw [heq2]
    have heq3 : (fetchFinish { s with replacer := { s.replacer with pinLists := rest } } p f).2
        = { s with replacer := { s.replacer with pinLists := rest },
                   writes := s.writes ++ [((pageAt s f).pageId, (pageAt s f).data)],
                   disk := diskWrite s.disk (pageAt s f).pageId (pageAt s f).data,
                   pageTable := ptInsert (ptErase s.pageTable (pageAt s f).pageId) p f,
                   pages := s.pages.set f { pageAt s f with pageId := p, isDirty := false, pinCount := 1, data := diskRead (diskWrite s.disk (pageAt s f).pageId (pageAt s f).data) p } } := by
      unfold fetchFinish
      dsimp only
      simp only [pageAt]
      rw [if_pos hd2]
    rw [heq3]
    refine ⟨?_, ?_, ?_, ?_⟩
    · show s.writes ++ [((pageAt s f).pageId, (pageAt s f).data)]
        = s.writes ++ [(q, (pageAt s f).data)]
      rw [hq]
    · show ptLookup (ptInsert (ptErase s.pageTable (pageAt s f).pageId) p f) q = none
      rw [hq, ptLookup_insert_ne _ _ _ _ hqp]
      exact ptLookup_erase_self _ _
    · show ptLookup (ptInsert (ptErase s.pageTable (pageAt s f).pageId) p f) p = some f
      exact ptLookup_insert_self _ _ _
    · show (((s.pages.set f { pageAt s f with pageId := p, isDirty := false, pinCount := 1, data := diskRead (diskWrite s.disk (pageAt s f).pageId (pageAt s f).data) p }).getD f emptyPage)).pageId = p
      rw [getD_set_self _ _ _ _ hflen]

/-- C5 witness: a pool of size 1 where page 0 was created and unpinned
dirty; both eviction routes write (0, contents) exactly once. -/
theorem C5_dirty_writeback_witness :
    (let s0 := (mkBPM 1 1 0 []).run [Op.newPage, Op.unpinPage 0 true]
     (ptLookup s0.pageTable 0 = some 0 ∧ (pageAt s0 0).pageId = 0 ∧
      (pageAt s0 0).isDirty = true ∧ s0.freeList = [] ∧
      s0.replacer.pinLists = 0 :: [] ∧ ptLookup s0.pageTable 5 = none ∧
      (0 : Int) ≠ s0.nextPageId ∧ 0 < s0.pages.length) ∧
     ((((s0.newPg).2).writes = s0.writes ++ [(0, (pageAt s0 0).data)] ∧
       ptLookup ((s0.newPg).2).pageTable 0 = none ∧
       ptLookup ((s0.newPg).2).pageTable s0.nextPageId = some 0 ∧
       (pageAt ((s0.newPg).2) 0).pageId = s0.nextPageId) ∧
      (((s0.fetchPg 5).2).writes = s0.writes ++ [(0, (pageAt s0 0).data)] ∧
       ptLookup ((s0.fetchPg 5).2).pageTable 0 = none ∧
       ptLookup ((s0.fetchPg 5).2).pageTable 5 = some 0 ∧
       (pageAt ((s0.fetchPg 5).2) 0).pageId = 5))) :=
  ⟨⟨by decide, by decide, by decide, by decide, by decide, by decide, by decide, by decide⟩,
   C5_dirty_writeback ((mkBPM 1 1 0 []).run [Op.newPage, Op.unpinPage 0 true]) 0 5 0 []
     (by decide) (by decide) (by decide) (by decide) (by decide) (by decide) (by decide)
     (by decide)⟩

/-- C7: UnpinPage returns false exactly when the page is not resident or
its pin count is already zero, and mutates nothing in that case; on
success it ORs the dirty flag with setDirty, decrements the pin count,
invokes the eligibility marking on the policy exactly when the new pin
count is zero (and the frame then is in the eligible list, given spare
capacity or prior membership), and returns true. -/
theorem C7_unpin_spec (s : BPM) (pid : Int) (d : Bool)
    (hnn : ∀ f, ptLookup s.pageTable pid = some f → 0 ≤ (pageAt s f).pinCount) :
    ((s.unpinPg pid d).1 = false ↔
      (ptLookup s.pageTable pid = none ∨
       ∃ f, ptLookup s.pageTable pid = some f ∧ (pageAt s f).pinCount = 0)) ∧
    ((s.unpinPg pid d).1 = false → (s.unpinPg pid d).2 = s) ∧
    (∀ f, ptLookup s.pageTable pid = some f → 0 < (pageAt s f).pinCount →
      f < s.pages.length →
      ((s.unpinPg pid d).1 = true ∧
       pageAt ((s.unpinPg pid d).2) f =
         { pageAt s f with isDirty := (pageAt s f).isDirty || d,
                           pinCount := (pageAt s f).pinCount - 1 } ∧
       (∀ j, j ≠ f → pageAt ((s.unpinPg pid d).2) j = pageAt s j) ∧
       ((s.unpinPg pid d).2).freeList = s.freeList ∧
       ((s.unpinPg pid d).2).pageTable = s.pageTable ∧
       ((s.unpinPg pid d).2).writes = s.writes ∧
       ((s.unpinPg pid d).2).replacer =
         (if (pageAt s f).pinCount - 1 = 0 then s.replacer.unpin f else s.replacer) ∧
       ((pageAt s f).pinCount - 1 = 0 →
        (s.replacer.pinLists.length < s.replacer.numPages ∨ f ∈ s.replacer.pinLists) →
        f ∈ ((s.unpinPg pid d).2).replacer.pinLists))) := by
  cases hl : ptLookup s.pageTable pid with
  | none =>
    have hpair : s.unpinPg pid d = (false, s) := by
      unfold BPM.unpinPg
      rw [hl]
    rw [hpair]
    refine ⟨⟨fun _ => Or.inl rfl, fun _ => rfl⟩, fun _ => rfl, ?_⟩
    intro f hf
    exact Option.noConfusion hf
  | some f0 =>
    by_cases hp : (pageAt s f0).pinCount ≤ 0
    · have hz : (pageAt s f0).pinCount = 0 := le_antisymm hp (hnn f0 hl)
      have hpair : s.unpinPg pid d = (false, s) := by
        unfold BPM.unpinPg
        rw [hl]
        dsimp only
        rw [if_pos hp]
      rw [hpair]
      refine ⟨⟨fun _ => Or.inr ⟨f0, rfl, hz⟩, fun _ => rfl⟩, fun _ => rfl, ?_⟩
      intro f hf hpos _
      have hff : f = f0 := by
        injection hf with hinj
        exact hinj.symm
      rw [hff] at hpos
      omega
    · have hpos0 : 0 < (pageAt s f0).pinCount := by omega
      have hfalse : ¬ ((some f0 : Option Nat) = none ∨
          ∃ f, (some f0 : Option Nat) = some f ∧ (pageAt s f).pinCount = 0) := by
        rintro (hc | ⟨f, hf, hzz⟩)
        · exact Option.noConfusion hc
        · have hff : f = f0 := by
            injection hf with hinj
            exact hinj.symm
          rw [hff] at hzz
          omega
      by_cases hz1 : (pageAt s f0).pinCount - 1 = 0
      · have hpair : s.unpinPg pid d = (true,
          { s with pages := s.pages.set f0 { pageAt s f0 with
                     isDirty := (pageAt s f0).isDirty || d,
                     pinCount := (pageAt s f0).pinCount - 1 },
                   replacer := s.replacer.unpin f0 }) := by
          unfold BPM.unpinPg
          rw [hl]
          dsimp only
          rw [if_neg hp]
          rw [if_pos hz1]
        rw [hpair]
        refine ⟨⟨fun hc => absurd hc (by simp), fun hc => absurd hc hfalse⟩,
          fun hc => absurd hc (by simp), ?_⟩
        intro f hf hpos hfl2
        have hff : f = f0 := by
          injection hf with hinj
          exact hinj.symm
        subst hff
        refine ⟨rfl, ?_, ?_, rfl, rfl, rfl, ?_, ?_⟩
        · show ((s.pages.set f _).getD f emptyPage) = _
          rw [getD_set_self _ _ _ _ hfl2]
        · intro j hj
          show ((s.pages.set f _).getD j emptyPage) = pageAt s j
          rw [getD_set_ne _ _ _ _ _ hj]
          rfl
        · rw [if_pos hz1]
        · intro _ hcap
          show f ∈ (s.replacer.unpin f).pinLists
          unfold LRUReplacer.unpin
          by_cases hm : f ∈ s.replacer.pinLists
          · rw [if_pos hm]
            exact hm
          · rw [if_neg hm]
            rcases hcap with hlt | hmem
            · rw [if_pos hlt]
              exact List.mem_append.mpr (Or.inr (List.mem_singleton_self f))
            · exact absurd hmem hm
      · have hpair : s.unpinPg pid d = (true,
          { s with pages := s.pages.set f0 { pageAt s f0 with
                     isDirty := (pageAt s f0).isDirty || d,
                     pinCount := (pageAt s f0).pinCount - 1 } }) := by
          unfold BPM.unpinPg
          rw [hl]
          dsimp only
          rw [if_neg hp]
          rw [if_neg hz1]
        rw [hpair]
        refine ⟨⟨fun hc => absurd hc (by simp), fun hc => absurd hc hfalse⟩,
          fun hc => absurd hc (by simp), ?_⟩
        intro f hf hpos hfl2
        have hff : f = f0 := by
          injection hf with hinj
          exact hinj.symm
        subst hff
        refine ⟨rfl, ?_, ?_, rfl, rfl, rfl, ?_, ?_⟩
        · show ((s.pages.set f _).getD f emptyPage) = _
          rw [getD_set_self _ _ _ _ hfl2]
        · intro j hj
          show ((s.pages.set f _).getD j emptyPage) = pageAt s j
          rw [getD_set_ne _ _ _ _ _ hj]
          rfl
        · rw [if_neg hz1]
        · intro hzz
          exact absurd hzz hz1

/-- C7 witness: unpinning page 0 (pinned once in frame 1) with dirty on a
pool of size 2 succeeds, decrements to zero and makes frame 1 eligible. -/
theorem C7_unpin_spec_witness :
    (let s0 := (mkBPM 2 1 0 []).run [Op.newPage]
     ((s0.unpinPg 0 true).1 = true ∧
      pageAt ((s0.unpinPg 0 true).2) 1 =
        { pageAt s0 1 with isDirty := (pageAt s0 1).isDirty || true,
                           pinCount := (pageAt s0 1).pinCount - 1 } ∧
      (∀ j, j ≠ 1 → pageAt ((s0.unpinPg 0 true).2) j = pageAt s0 j) ∧
      ((s0.unpinPg 0 true).2).freeList = s0.freeList ∧
      ((s0.unpinPg 0 true).2).pageTable = s0.pageTable ∧
      ((s0.unpinPg 0 true).2).writes = s0.writes ∧
      ((s0.unpinPg 0 true).2).replacer =
        (if (pageAt s0 1).pinCount - 1 = 0 then s0.replacer.unpin 1 else s0.replacer) ∧
      ((pageAt s0 1).pinCount - 1 = 0 →
       (s0.replacer.pinLists.length < s0.replacer.numPages ∨ 1 ∈ s0.replacer.pinLists) →
       1 ∈ ((s0.unpinPg 0 true).2).replacer.pinLists))) :=
  (C7_unpin_spec ((mkBPM 2 1 0 []).run [Op.newPage]) 0 true
    (by
      intro f hf
      have h1 : some 1 = some f := hf
      injection h1 with h2
      rw [← h2]
      decide)).2.2 1 (by decide) (by decide) (by decide)

end BusTub
